import Mathlib

/-!
Verification of a mini virtual-DOM rendering engine (reconciler, hook runtime,
render/effect scheduler) against its natural-language specification.

The TypeScript sources embedded here:
  * `core/reconciler.ts`  — reconcile / mount* / update* / reconcileChildren
  * `core/dom.ts`         — setDomProps / updateDomProps / getDomNodes /
                            getFirstDom / insertInstance / removeInstance
  * `core/hooks.ts`       — useState / useEffect / cleanupUnusedHooks /
                            executeEffects
  * `core/setup.ts`       — setup
  * `core/elements.ts`    — createChildPath
  * `core/render.ts`      — cleanupInstanceBeforeClear / render

The host DOM is modelled explicitly (node ids, per-parent ordered child
lists, text contents) together with a mutation log, so that "zero host
mutations" and "moved, not recreated" are expressible.  JavaScript values
appearing in props / hook slots are modelled by an inductive `Value` whose
decidable equality coincides with JS `Object.is` / `===` on the fragment
used (no NaN / -0 distinction arises for integers).
-/

set_option autoImplicit false

namespace MiniReact

/-- JavaScript values stored in props and hook state slots.  Functions and
plain objects are represented by reference identity (`fnRef` / `objRef`),
matching `===` / `Object.is` comparison of references. -/
inductive Value where
  | str (s : String)
  | num (n : Int)
  | bool (b : Bool)
  | null
  | undef
  | fnRef (id : Nat)
  | objRef (id : Nat)
  deriving DecidableEq, Repr

/-- JS truthiness for the modelled values. -/
def Value.truthy : Value → Bool
  | .str s => !(s = "")
  | .num n => !(n = 0)
  | .bool b => b
  | .null => false
  | .undef => false
  | .fnRef _ => true
  | .objRef _ => true

/-- `typeof v === "function"`. -/
def Value.isFn : Value → Bool
  | .fnRef _ => true
  | _ => false

/-- `typeof v === "boolean"`. -/
def Value.isBool : Value → Bool
  | .bool _ => true
  | _ => false

/-- `typeof v === "object" && v !== null && !Array.isArray(v)` for the style
branch (arrays are not part of the value model). -/
def Value.isObj : Value → Bool
  | .objRef _ => true
  | _ => false

/-- JS loose `v == null` (true exactly for `null` and `undefined`). -/
def Value.looseNull : Value → Bool
  | .null => true
  | .undef => true
  | _ => false

/-- JS `a || b` (first operand if truthy, second otherwise). -/
def Value.jsOr (a b : Value) : Value :=
  if a.truthy then a else b

/-- `String(key)` for key values (string and number keys occur). -/
def Value.keyString : Value → String
  | .str s => s
  | .num n => toString n
  | .bool b => toString b
  | .null => "null"
  | .undef => "undefined"
  | .fnRef i => "fn" ++ toString i
  | .objRef i => "obj" ++ toString i

/-- Association-list lookup (models `Map.get`). -/
def aget {α β : Type} [DecidableEq α] (l : List (α × β)) (k : α) : Option β :=
  match l.find? (fun e => e.1 = k) with
  | some e => some e.2
  | none => none

/-- Association-list update (models `Map.set`: replaces in place when the key
exists, otherwise appends, preserving JS `Map` insertion iteration order). -/
def aset {α β : Type} [DecidableEq α] (l : List (α × β)) (k : α) (v : β) : List (α × β) :=
  match l with
  | [] => [(k, v)]
  | e :: rest => if e.1 = k then (k, v) :: rest else e :: aset rest k v

/-- Association-list delete (models `Map.delete`). -/
def adel {α β : Type} [DecidableEq α] (l : List (α × β)) (k : α) : List (α × β) :=
  l.filter (fun e => !(e.1 = k))

/-- Set membership for the string sets (`visited`, `usedOldChildren`). -/
def smem {α : Type} [DecidableEq α] (l : List α) (x : α) : Bool :=
  l.contains x

/-- Set insertion (models `Set.add`). -/
def sadd {α : Type} [DecidableEq α] (l : List α) (x : α) : List α :=
  if smem l x then l else l ++ [x]

/-- `pre` is a prefix of `s` (reducible implementation of JS
`s.startsWith(pre)` over the character lists, because the byte-level
`String` primitives do not compute inside the kernel). -/
def strStarts (pre s : String) : Bool :=
  pre.data.isPrefixOf s.data

/-- `onClick` to `click`: drop the "on" and lower-case the rest (dom.ts
`key.slice(2).toLowerCase()`), over character lists for reducibility. -/
def eventNameOf (key : String) : String :=
  String.mk ((key.data.drop 2).map Char.toLower)

/-- Node type of a VNode: host tag string, text marker, fragment marker, or a
component function (identified by reference id into a component
environment). -/
inductive NType where
  | host (tag : String)
  | text
  | fragment
  | comp (id : Nat)
  deriving DecidableEq, Repr

/-- Virtual node.  `props.children` of the source is the separate `children`
field; `props.nodeValue` of text nodes is the separate `nodeValue` field.
All remaining props are the ordered map `props`. -/
inductive VNode where
  | mk (ty : NType) (key : Option Value) (props : List (String × Value))
      (children : List VNode) (nodeValue : String)
  deriving Repr

mutual

/-- Structural equality test for virtual nodes. -/
def vbeq : VNode → VNode → Bool
  | .mk t1 k1 p1 c1 v1, .mk t2 k2 p2 c2 v2 =>
    t1 = t2 && k1 = k2 && p1 = p2 && vbeqList c1 c2 && v1 = v2

/-- Structural equality test for lists of virtual nodes. -/
def vbeqList : List VNode → List VNode → Bool
  | [], [] => true
  | a :: as, b :: bs => vbeq a b && vbeqList as bs
  | _, _ => false

end

mutual

theorem vbeq_eq : (a b : VNode) → vbeq a b = true → a = b
  | .mk t1 k1 p1 c1 v1, .mk t2 k2 p2 c2 v2 => by
    simp only [vbeq, Bool.and_eq_true, decide_eq_true_eq]
    intro h
    obtain ⟨⟨⟨⟨h1, h2⟩, h3⟩, h4⟩, h5⟩ := h
    have hc := vbeqList_eq c1 c2 h4
    subst h1; subst h2; subst h3; subst hc; subst h5
    rfl

theorem vbeqList_eq : (a b : List VNode) → vbeqList a b = true → a = b
  | [], [] => fun _ => rfl
  | [], _ :: _ => by intro h; exact absurd h (by simp [vbeqList])
  | _ :: _, [] => by intro h; exact absurd h (by simp [vbeqList])
  | a :: as, b :: bs => by
    simp only [vbeqList, Bool.and_eq_true]
    intro h
    have h1 := vbeq_eq a b h.1
    have h2 := vbeqList_eq as bs h.2
    rw [h1, h2]

end

mutual

theorem vbeq_self : (a : VNode) → vbeq a a = true
  | .mk _ _ _ c _ => by
    simp [vbeq, vbeqList_self c]

theorem vbeqList_self : (a : List VNode) → vbeqList a a = true
  | [] => rfl
  | a :: as => by
    simp only [vbeqList, Bool.and_eq_true]
    exact ⟨vbeq_self a, vbeqList_self as⟩

end

instance : DecidableEq VNode := fun a b =>
  if h : vbeq a b = true then isTrue (vbeq_eq a b h)
  else isFalse (fun he => h (he ▸ vbeq_self a))

def VNode.ty : VNode → NType
  | .mk t _ _ _ _ => t

def VNode.key : VNode → Option Value
  | .mk _ k _ _ _ => k

def VNode.props : VNode → List (String × Value)
  | .mk _ _ p _ _ => p

def VNode.children : VNode → List VNode
  | .mk _ _ _ c _ => c

def VNode.nodeValue : VNode → String
  | .mk _ _ _ _ v => v

/-- Instance kinds (`NodeTypes.HOST/TEXT/COMPONENT/FRAGMENT`). -/
inductive NKind where
  | host
  | text
  | component
  | fragment
  deriving DecidableEq, Repr

/-- Render-tree instance mirroring one VNode (`types.ts` `Instance`).
`dom` is the id of the owned host node (none for components/fragments). -/
inductive Instance where
  | mk (kind : NKind) (dom : Option Nat) (node : VNode)
      (children : List (Option Instance)) (key : Option Value) (path : String)
  deriving Repr

mutual

/-- Structural equality test for instances. -/
def ibeq : Instance → Instance → Bool
  | .mk k1 d1 n1 c1 y1 p1, .mk k2 d2 n2 c2 y2 p2 =>
    k1 = k2 && d1 = d2 && n1 = n2 && ibeqList c1 c2 && y1 = y2 && p1 = p2

/-- Structural equality test for optional instances. -/
def ibeqOpt : Option Instance → Option Instance → Bool
  | none, none => true
  | some a, some b => ibeq a b
  | _, _ => false

/-- Structural equality test for child lists. -/
def ibeqList : List (Option Instance) → List (Option Instance) → Bool
  | [], [] => true
  | a :: as, b :: bs => ibeqOpt a b && ibeqList as bs
  | _, _ => false

end

mutual

theorem ibeq_eq : (a b : Instance) → ibeq a b = true → a = b
  | .mk k1 d1 n1 c1 y1 p1, .mk k2 d2 n2 c2 y2 p2 => by
    simp only [ibeq, Bool.and_eq_true, decide_eq_true_eq]
    intro h
    obtain ⟨⟨⟨⟨⟨h1, h2⟩, h3⟩, h4⟩, h5⟩, h6⟩ := h
    have hc := ibeqList_eq c1 c2 h4
    subst h1; subst h2; subst h3; subst hc; subst h5; subst h6
    rfl

theorem ibeqOpt_eq : (a b : Option Instance) → ibeqOpt a b = true → a = b
  | none, none => fun _ => rfl
  | none, some _ => by intro h; exact absurd h (by simp [ibeqOpt])
  | some _, none => by intro h; exact absurd h (by simp [ibeqOpt])
  | some a, some b => fun h => by rw [ibeq_eq a b h]

theorem ibeqList_eq : (a b : List (Option Instance)) → ibeqList a b = true → a = b
  | [], [] => fun _ => rfl
  | [], _ :: _ => by intro h; exact absurd h (by simp [ibeqList])
  | _ :: _, [] => by intro h; exact absurd h (by simp [ibeqList])
  | a :: as, b :: bs => by
    simp only [ibeqList, Bool.and_eq_true]
    intro h
    have h1 := ibeqOpt_eq a b h.1
    have h2 := ibeqList_eq as bs h.2
    rw [h1, h2]

end

mutual

theorem ibeq_self : (a : Instance) → ibeq a a = true
  | .mk _ _ _ c _ _ => by
    simp [ibeq, ibeqList_self c]

theorem ibeqOpt_self : (a : Option Instance) → ibeqOpt a a = true
  | none => rfl
  | some a => ibeq_self a

theorem ibeqList_self : (a : List (Option Instance)) → ibeqList a a = true
  | [] => rfl
  | a :: as => by
    simp only [ibeqList, Bool.and_eq_true]
    exact ⟨ibeqOpt_self a, ibeqList_self as⟩

end

instance : DecidableEq Instance := fun a b =>
  if h : ibeq a b = true then isTrue (ibeq_eq a b h)
  else isFalse (fun he => h (he ▸ ibeq_self a))

def Instance.kind : Instance → NKind
  | .mk k _ _ _ _ _ => k

def Instance.dom : Instance → Option Nat
  | .mk _ d _ _ _ _ => d

def Instance.node : Instance → VNode
  | .mk _ _ n _ _ _ => n

def Instance.children : Instance → List (Option Instance)
  | .mk _ _ _ c _ _ => c

def Instance.key : Instance → Option Value
  | .mk _ _ _ _ k _ => k

def Instance.path : Instance → String
  | .mk _ _ _ _ _ p => p

/-- Host-tree mutation operations, recorded in order in the document log. -/
inductive DomOp where
  | createEl (id : Nat) (tag : String)
  | createText (id : Nat) (s : String)
  | setAttr (id : Nat) (k : String) (v : Value)
  | removeAttr (id : Nat) (k : String)
  | addEvent (id : Nat) (ev : String) (f : Value)
  | removeEvent (id : Nat) (ev : String) (f : Value)
  | applyStyleObj (id : Nat) (v : Value)
  | clearStyleObj (id : Nat) (v : Value)
  | setClass (id : Nat) (v : Value)
  | setProp (id : Nat) (k : String) (v : Value)
  | setText (id : Nat) (s : String)
  | insertBefore (parent : Nat) (id : Nat) (anchor : Nat)
  | appendChild (parent : Nat) (id : Nat)
  | removeChild (parent : Nat) (id : Nat)
  | clearContainer (id : Nat)
  deriving DecidableEq, Repr

/-- Whether an op only re-arranges existing nodes (no creation, no
attribute/text change). -/
def DomOp.isMove : DomOp → Bool
  | .insertBefore _ _ _ => true
  | .appendChild _ _ => true
  | .removeChild _ _ => true
  | _ => false

/-- The host document: an id allocator, per-parent ordered child-id lists,
text-node contents, element tags, and the mutation log. -/
structure Dom where
  nextId : Nat
  kids : List (Nat × List Nat)
  text : List (Nat × String)
  tags : List (Nat × String)
  log : List DomOp
  deriving DecidableEq, Repr

def Dom.kidsOf (d : Dom) (p : Nat) : List Nat :=
  (aget d.kids p).getD []

/-- `node.parentNode`: the parent whose child list contains the node. -/
def Dom.parentOf (d : Dom) (n : Nat) : Option Nat :=
  match d.kids.find? (fun e => smem e.2 n) with
  | some e => some e.1
  | none => none

/-- The element following `n` in a child list. -/
def listNextAfter (l : List Nat) (n : Nat) : Option Nat :=
  match l with
  | [] => none
  | [_] => none
  | a :: b :: rest => if a = n then some b else listNextAfter (b :: rest) n

/-- `node.nextSibling`. -/
def Dom.nextSibling (d : Dom) (n : Nat) : Option Nat :=
  match d.parentOf n with
  | none => none
  | some p => listNextAfter (d.kidsOf p) n

/-- Remove `n` from whatever child list currently holds it (the implicit
detach performed by JS `insertBefore`/`appendChild`). -/
def Dom.detach (d : Dom) (n : Nat) : Dom :=
  { d with kids := d.kids.map (fun e => (e.1, e.2.erase n)) }

/-- Insert `n` into `l` immediately before `anchor` (appends when the anchor
is absent; the engine only passes anchors that are present). -/
def listInsertBefore (l : List Nat) (anchor n : Nat) : List Nat :=
  match l with
  | [] => [n]
  | a :: rest => if a = anchor then n :: a :: rest else a :: listInsertBefore rest anchor n

/-- `parent.insertBefore(n, anchor)`. -/
def Dom.insertBeforeOp (d : Dom) (parent n anchor : Nat) : Dom :=
  let d := d.detach n
  { d with
    kids := aset d.kids parent (listInsertBefore (d.kidsOf parent) anchor n)
    log := d.log ++ [.insertBefore parent n anchor] }

/-- `parent.appendChild(n)`. -/
def Dom.appendChildOp (d : Dom) (parent n : Nat) : Dom :=
  let d := d.detach n
  { d with
    kids := aset d.kids parent (d.kidsOf parent ++ [n])
    log := d.log ++ [.appendChild parent n] }

/-- `parent.removeChild(n)`. -/
def Dom.removeChildOp (d : Dom) (parent n : Nat) : Dom :=
  { d with
    kids := aset d.kids parent ((d.kidsOf parent).erase n)
    log := d.log ++ [.removeChild parent n] }

/-- `document.createElement(tag)`. -/
def Dom.createElement (d : Dom) (tag : String) : Nat × Dom :=
  (d.nextId,
    { d with
      nextId := d.nextId + 1
      kids := aset d.kids d.nextId []
      tags := aset d.tags d.nextId tag
      log := d.log ++ [.createEl d.nextId tag] })

/-- `document.createTextNode(s)`. -/
def Dom.createTextNode (d : Dom) (s : String) : Nat × Dom :=
  (d.nextId,
    { d with
      nextId := d.nextId + 1
      text := aset d.text d.nextId s
      log := d.log ++ [.createText d.nextId s] })

/-- `node.textContent` of a text node. -/
def Dom.textOf (d : Dom) (n : Nat) : String :=
  (aget d.text n).getD ""

/-- `node.textContent = s`. -/
def Dom.setTextOp (d : Dom) (n : Nat) (s : String) : Dom :=
  { d with text := aset d.text n s, log := d.log ++ [.setText n s] }

/-- `container.innerHTML = ""` (drops all children of the container). -/
def Dom.clearContainerOp (d : Dom) (n : Nat) : Dom :=
  { d with kids := aset d.kids n [], log := d.log ++ [.clearContainer n] }

/-- One key of `setDomProps` (dom.ts lines 9-63).  The style branch applies
the style object's sub-keys; the object being opaque here, the whole
application is recorded as one `applyStyleObj` operation. -/
def setDomPropStep (i : Nat) (d : Dom) (kv : String × Value) : Dom :=
  let key := kv.1
  let value := kv.2
  if key = "children" then d
  else if strStarts "on" key && value.isFn then
    { d with log := d.log ++ [.addEvent i (eventNameOf key) value] }
  else if key = "style" && value.isObj then
    { d with log := d.log ++ [.applyStyleObj i value] }
  else if key = "className" then
    { d with log := d.log ++ [.setClass i (value.jsOr (.str ""))] }
  else if value.isBool then
    if value.truthy then
      { d with log := d.log ++ [.setAttr i key (.str ""), .setProp i key value] }
    else
      { d with log := d.log ++ [.removeAttr i key, .setProp i key value] }
  else if value.looseNull || value = .bool false then
    { d with log := d.log ++ [.removeAttr i key] }
  else
    { d with log := d.log ++ [.setAttr i key value, .setProp i key value] }

/-- `setDomProps` (dom.ts lines 9-63): apply every prop of a freshly created
element, in props order. -/
def setDomProps (d : Dom) (i : Nat) (props : List (String × Value)) : Dom :=
  props.foldl (setDomPropStep i) d

/-- `new Set([...prevKeys, ...nextKeys])` iterated in insertion order. -/
def allPropKeys (prev next : List (String × Value)) : List String :=
  ((prev.map Prod.fst) ++ (next.map Prod.fst)).eraseDups

/-- One key of `updateDomProps` (dom.ts lines 70-164). -/
def updateDomPropStep (i : Nat) (prev next : List (String × Value)) (d : Dom) (key : String) : Dom :=
  if key = "children" then d
  else
    let prevValue := (aget prev key).getD .undef
    let nextValue := (aget next key).getD .undef
    if prevValue = nextValue then d
    else if strStarts "on" key && (prevValue.jsOr nextValue).isFn then
      let d : Dom := if prevValue.truthy then
          { d with log := d.log ++ [.removeEvent i (eventNameOf key) prevValue] }
        else d
      if nextValue.truthy then
        { d with log := d.log ++ [.addEvent i (eventNameOf key) nextValue] }
      else d
    else if key = "style" then
      let d : Dom := if prevValue.truthy && prevValue.isObj then
          { d with log := d.log ++ [.clearStyleObj i prevValue] }
        else d
      if nextValue.truthy && nextValue.isObj then
        { d with log := d.log ++ [.applyStyleObj i nextValue] }
      else if !nextValue.truthy then
        { d with log := d.log ++ [.removeAttr i "style"] }
      else d
    else if key = "className" then
      if nextValue.truthy then { d with log := d.log ++ [.setClass i nextValue] }
      else { d with log := d.log ++ [.setClass i (.str "")] }
    else if prevValue.isBool || nextValue.isBool then
      let boolValue := nextValue.truthy
      let d : Dom := if boolValue then { d with log := d.log ++ [.setAttr i key (.str "")] }
        else { d with log := d.log ++ [.removeAttr i key] }
      { d with log := d.log ++ [.setProp i key (.bool boolValue)] }
    else if nextValue.looseNull || nextValue = .bool false then
      { d with log := d.log ++ [.removeAttr i key, .setProp i key nextValue] }
    else
      { d with log := d.log ++ [.setAttr i key nextValue, .setProp i key nextValue] }

/-- `updateDomProps` (dom.ts lines 70-164): diff old props against new props
over the union of their keys; unchanged values are skipped. -/
def updateDomProps (d : Dom) (i : Nat) (prev next : List (String × Value)) : Dom :=
  (allPropKeys prev next).foldl (updateDomPropStep i prev next) d

mutual

/-- `getDomNodes` (dom.ts lines 170-199): the host nodes materializing an
instance (one for host/text, the concatenation over children for
component/fragment).  The recursion is bounded by a fuel argument (kept
comfortably above the tree depth by every caller) so the definition stays
structurally recursive and computes by kernel reduction. -/
def getDomNodes : Nat → Option Instance → List Nat
  | 0, _ => []
  | _ + 1, none => []
  | fuel + 1, some (.mk k dm _ cs _ _) =>
    match k with
    | .host => match dm with | some n => [n] | none => []
    | .text => match dm with | some n => [n] | none => []
    | .component => getDomNodesList fuel cs
    | .fragment => getDomNodesList fuel cs

/-- Children part of `getDomNodes`. -/
def getDomNodesList : Nat → List (Option Instance) → List Nat
  | 0, _ => []
  | _ + 1, [] => []
  | fuel + 1, c :: rest => getDomNodes fuel c ++ getDomNodesList fuel rest

end

mutual

/-- `getFirstDom` (dom.ts lines 204-227), fuelled like `getDomNodes`. -/
def getFirstDom : Nat → Option Instance → Option Nat
  | 0, _ => none
  | _ + 1, none => none
  | fuel + 1, some (.mk k dm _ cs _ _) =>
    match k with
    | .host => dm
    | .text => dm
    | .component => getFirstDomFromChildren fuel cs
    | .fragment => getFirstDomFromChildren fuel cs

/-- `getFirstDomFromChildren` (dom.ts lines 232-242). -/
def getFirstDomFromChildren : Nat → List (Option Instance) → Option Nat
  | 0, _ => none
  | _ + 1, [] => none
  | fuel + 1, c :: rest =>
    match getFirstDom fuel c with
    | some n => some n
    | none => getFirstDomFromChildren fuel rest

end

/-- `insertInstance` (dom.ts lines 248-275): insert all host nodes of the
instance into the parent, before the anchor when one is given. -/
def insertInstance (fuel : Nat) (d : Dom) (parentDom : Nat) (inst : Option Instance)
    (anchor : Option Nat := none) : Dom :=
  let nodes := getDomNodes fuel inst
  if nodes.isEmpty then d
  else
    match anchor with
    | some a => nodes.foldl (fun d n => d.insertBeforeOp parentDom n a) d
    | none => nodes.foldl (fun d n => d.appendChildOp parentDom n) d

/-- `removeInstance` (dom.ts lines 280-293): remove every host node of the
instance whose current parent is `parentDom`. -/
def removeInstance (fuel : Nat) (d : Dom) (parentDom : Nat) (inst : Option Instance) : Dom :=
  (getDomNodes fuel inst).foldl
    (fun d n => if d.parentOf n = some parentDom then d.removeChildOp parentDom n else d) d

/-- `createChildPath` (elements.ts lines 111-124): parent path + "." + key if
present, else the sibling index. -/
def createChildPath (parentPath : String) (key : Option Value) (index : Nat) : String :=
  match key with
  | some k => parentPath ++ "." ++ k.keyString
  | none => parentPath ++ "." ++ toString index

/-- A hook slot: a JS `undefined` hole, a state value, or an effect record
(`kind: EFFECT`, deps array or null, stored cleanup function, latest effect
function).  Functions are identified by ids. -/
inductive Slot where
  | undef
  | val (v : Value)
  | eff (deps : Option (List Value)) (cleanup : Option Nat) (effect : Nat)
  deriving DecidableEq, Repr

/-- A slot that JS reads as `undefined` (a hole, or a stored `undefined`
state value — indistinguishable in the array). -/
def isUndefSlot : Slot → Bool
  | .undef => true
  | .val .undef => true
  | _ => false

/-- `hooks[i]` (JS array read, `undefined` beyond the length). -/
def slotGet (l : List Slot) (i : Nat) : Slot :=
  (l.get? i).getD (.undef)

/-- `hooks[i] = s` (JS array write, growing with `undefined` holes). -/
def slotSet (l : List Slot) (i : Nat) (s : Slot) : List Slot :=
  if i < l.length then l.set i s
  else l ++ List.replicate (i - l.length) .undef ++ [s]

/-- Observable invocations of user-supplied functions (effect bodies and
effect cleanups), recorded in execution order. -/
inductive RunEv where
  | cleanupRun (id : Nat)
  | effectRun (id : Nat)
  deriving DecidableEq, Repr

/-- The engine's global mutable context (`context.ts` fields used by the
core, plus the host document and the run log): hook store, per-path
cursors, visited set, active-invocation component stack, effect queue, and
the root record of `context.root`. -/
structure Ctx where
  state : List (String × List Slot)
  cursor : List (String × Nat)
  visited : List String
  componentStack : List String
  effQueue : List (String × Nat)
  runLog : List RunEv
  dom : Dom
  rootContainer : Option Nat
  rootNode : Option VNode
  rootInstance : Option Instance
  deriving DecidableEq, Repr

/-- Modelled from the spec: `context.hooks.currentPath` (context.ts is not
under src/) — the Path of the active component invocation, i.e. the top of
the active-invocation `componentStack` (spec section 3, Hook Store; section 4.2,
cursor discipline). -/
def Ctx.currentPath (c : Ctx) : String :=
  c.componentStack.head?.getD ""

/-- Modelled from the spec: `context.hooks.currentCursor` — the per-Path
cursor of the active Path, 0 before the first hook call. -/
def Ctx.currentCursor (c : Ctx) : Nat :=
  (aget c.cursor c.currentPath).getD 0

/-- Modelled from the spec: `context.hooks.currentHooks` — the Hook Store
slot sequence of the active Path (empty when the Path has no entry yet). -/
def Ctx.currentHooks (c : Ctx) : List Slot :=
  (aget c.state c.currentPath).getD []

/-- `useState` (hooks.ts lines 78-117), the render-side behaviour: slot
initialization on first use (the lazy-initializer variant evaluates to the
same initial value and is folded into `init`), value read, cursor
increment.  The setter closure it returns is modelled separately
(`SetterModel.setState`) because the setter closes over the live hooks
array and the read value. -/
def useStateR (init : Value) (c : Ctx) : Value × Ctx :=
  let path := c.currentPath
  let cursor := c.currentCursor
  let hooks := c.currentHooks
  let hooks :=
    if cursor ≥ hooks.length || isUndefSlot (slotGet hooks cursor) then
      slotSet hooks cursor (.val init)
    else hooks
  let stateVal := match slotGet hooks cursor with
    | .val v => v
    | _ => .undef
  let c := { c with state := aset c.state path hooks }
  let cur2 := (aget c.cursor path).getD 0
  (stateVal, { c with cursor := aset c.cursor path (cur2 + 1) })

/-- Modelled from the spec: `shallowEquals` from `utils` (not under src/) —
"shallow element-wise equality over a fixed-length array" (spec section 4.2):
equal lengths and `===`-equal elements. -/
def shallowEquals (a b : List Value) : Bool :=
  a.length = b.length && (List.zip a b).all (fun p => p.1 = p.2)

/-- The previous-record lookup of `useEffect` (hooks.ts lines 136-140): the
stored effect record at the cursor, when the slot holds one. -/
def prevEffectAt (hooks : List Slot) (cursor : Nat) :
    Option (Option (List Value) × Option Nat × Nat) :=
  if cursor < hooks.length then
    match slotGet hooks cursor with
    | .eff d cl e => some (d, cl, e)
    | _ => none
  else none

/-- The `shouldRun` decision of `useEffect` (hooks.ts lines 147-158): run on
the first invocation at the slot, when `deps` is undefined, when the
previous record stored no deps array, and otherwise exactly when the
shallow comparison differs. -/
def effectShouldRun (prevHook : Option (Option (List Value) × Option Nat × Nat))
    (deps : Option (List Value)) : Bool :=
  match prevHook with
  | none => true
  | some (prevDeps, _, _) =>
    match deps, prevDeps with
    | none, _ => true
    | _, none => true
    | some ds, some pds => !shallowEquals pds ds

/-- `useEffect` (hooks.ts lines 124-183): dependency gating against the
previous effect record, queueing of `(path, cursor)`, and storing the
refreshed effect record (latest effect function, carried-over cleanup). -/
def useEffectR (effId : Nat) (deps : Option (List Value)) (c : Ctx) : Ctx :=
  let path := c.currentPath
  let cursor := c.currentCursor
  let hooks := (aget c.state path).getD []
  let prevHook := prevEffectAt hooks cursor
  let shouldRun := effectShouldRun prevHook deps
  let c := if shouldRun then { c with effQueue := c.effQueue ++ [(path, cursor)] } else c
  let newSlot : Slot := .eff deps (match prevHook with
    | some (_, cl, _) => cl
    | none => none) effId
  let c := { c with state := aset c.state path (slotSet hooks cursor newSlot) }
  let cur2 := (aget c.cursor path).getD 0
  { c with cursor := aset c.cursor path (cur2 + 1) }

/-- `path.startsWith(visitedPath + ".")` over the visited set. -/
def isUnderSome (visited : List String) (p : String) : Bool :=
  visited.any (fun v => strStarts (v ++ ".") p)

/-- Run the cleanups of every effect record in a slot list (exceptions from
a cleanup are caught and logged by the engine, so a run is always recorded
and execution continues). -/
def runCleanups (hooks : List Slot) (log : List RunEv) : List RunEv :=
  hooks.foldl (fun lg h =>
    match h with
    | .eff _ (some cl) _ => lg ++ [.cleanupRun cl]
    | _ => lg) log

/-- `cleanupUnusedHooks` (hooks.ts lines 10-71): for every stored path that
is neither visited nor under a visited path, run its effect cleanups, then
delete its state and cursor entries, and finally drop queued effects whose
path is neither visited nor under a visited path. -/
def cleanupUnusedHooks (c : Ctx) : Ctx :=
  let keep : String → Bool := fun p => smem c.visited p || isUnderSome c.visited p
  let log := c.state.foldl (fun lg e => if keep e.1 then lg else runCleanups e.2 lg) c.runLog
  let cleaned := (c.state.filter (fun e => !keep e.1)).map Prod.fst
  { c with
    runLog := log
    state := c.state.filter (fun e => keep e.1)
    cursor := cleaned.foldl adel c.cursor
    effQueue := c.effQueue.filter (fun pc => keep pc.1) }

/-- Behaviour of one user effect function: effect-queue entries it pushes
while running (e.g. via setters scheduling renders whose `useEffect` calls
queue again — abstracted to direct pushes), the cleanup it returns, and
whether it throws after those pushes. -/
structure EffRes where
  pushes : List (String × Nat)
  newCleanup : Option Nat
  throws : Bool

/-- Environment resolving effect-function ids to their behaviour. -/
def EffEnv : Type := Nat → EffRes

/-- The body of the `forEach` in `executeEffects` (hooks.ts lines 200-242):
skip entries whose path has no state, whose cursor is out of range, or
whose slot is not an effect record; otherwise run the stored cleanup (if
any), run the effect, and store the returned cleanup (null on throw). -/
def execOne (env : EffEnv) (c : Ctx) (pc : String × Nat) : Ctx :=
  match aget c.state pc.1 with
  | none => c
  | some hooks =>
    if pc.2 ≥ hooks.length then c
    else
      match slotGet hooks pc.2 with
      | .eff deps cl effId =>
        let c : Ctx := match cl with
          | some clId => { c with runLog := c.runLog ++ [.cleanupRun clId] }
          | none => c
        let r := env effId
        let newCl := if r.throws then none else r.newCleanup
        { c with
          runLog := c.runLog ++ [.effectRun effId]
          effQueue := c.effQueue ++ r.pushes
          state := aset c.state pc.1 (slotSet hooks pc.2 (.eff deps newCl effId)) }
      | _ => c

/-- `executeEffects` (hooks.ts lines 189-243): snapshot the queue
(`[...queue]`), clear the live queue (`queue.length = 0`), then run every
snapshot entry in order; pushes performed while running land in the live
(new) queue, never in the snapshot being drained. -/
def executeEffects (env : EffEnv) (c : Ctx) : Ctx :=
  if c.effQueue.isEmpty then c
  else
    let snapshot := c.effQueue
    let c := { c with effQueue := [] }
    snapshot.foldl (execOne env) c

/-- Deep-embedded hook calls of a component body, run in order before the
body's returned VNode is computed. -/
inductive HookCall where
  | hUseState (init : Value)
  | hUseEffect (effId : Nat) (deps : Option (List Value))

/-- A component function: its hook calls in call order, then its rendered
output as a function of its props and the state values read (throwing
components return `Except.error`). -/
structure CompDef where
  hooks : List HookCall
  view : List (String × Value) → List Value → Except Nat (Option VNode)

/-- Environment resolving component-function references (`NType.comp` ids). -/
def CompEnv : Type := Nat → CompDef

/-- Run a component body's hook calls in order, collecting the state values
returned by its `useState` calls. -/
def runHookCalls (calls : List HookCall) (c : Ctx) : List Value × Ctx :=
  calls.foldl (fun acc h =>
    match h with
    | .hUseState init =>
      let r := useStateR init acc.2
      (acc.1 ++ [r.1], r.2)
    | .hUseEffect effId deps => (acc.1, useEffectR effId deps acc.2)) ([], c)

/-- Abnormal outcomes of a reconcile pass: an uncaught JS exception
identified by id (`thrown`), a violated structural invariant that the
source turns into a thrown `Error` (`broken`), or recursion fuel
exhaustion of the embedding. -/
inductive RErr where
  | fuelOut
  | thrown (e : Nat)
  | broken (msg : String)
  deriving DecidableEq, Repr

/-- Computations over the mutable engine context that can terminate by an
uncaught exception.  JS mutations performed before a throw persist, so the
context is returned in both outcomes. -/
def RecM (α : Type) : Type := Ctx → Except RErr α × Ctx

instance : Monad RecM where
  pure a := fun c => (.ok a, c)
  bind m f := fun c =>
    match m c with
    | (.ok a, c2) => f a c2
    | (.error e, c2) => (.error e, c2)

def getCtx : RecM Ctx := fun c => (.ok c, c)

def modCtx (f : Ctx → Ctx) : RecM Unit := fun c => (.ok (), f c)

def modDom (f : Dom → Dom) : RecM Unit :=
  modCtx (fun c => { c with dom := f c.dom })

def throwR {α : Type} (e : RErr) : RecM α := fun c => (.error e, c)

@[simp] theorem recm_bind_apply {α β : Type} (m : RecM α) (f : α → RecM β) (c : Ctx) :
    (m >>= f) c = (match m c with
      | (.ok a, c2) => f a c2
      | (.error er, c2) => (.error er, c2)) := rfl

@[simp] theorem recm_pure_apply {α : Type} (a : α) (c : Ctx) :
    (pure a : RecM α) c = (.ok a, c) := rfl

@[simp] theorem modCtx_apply (f : Ctx → Ctx) (c : Ctx) : modCtx f c = (.ok (), f c) := rfl

@[simp] theorem getCtx_apply (c : Ctx) : getCtx c = (.ok c, c) := rfl

@[simp] theorem throwR_apply {α : Type} (e : RErr) (c : Ctx) :
    (throwR e : RecM α) c = (.error e, c) := rfl

/-- `document.createElement` as a context action returning the new id. -/
def allocElement (tag : String) : RecM Nat := fun c =>
  let r := c.dom.createElement tag
  (.ok r.1, { c with dom := r.2 })

/-- `mountText` (reconciler.ts lines 51-67). -/
def mountText (fuel parentDom : Nat) (node : VNode) (path : String) : RecM Instance := fun c =>
  let r := c.dom.createTextNode node.nodeValue
  let inst := Instance.mk .text (some r.1) node [] node.key path
  (.ok inst, { c with dom := insertInstance fuel r.2 parentDom (some inst) })

/-- `updateText` (reconciler.ts lines 173-190): overwrite the text only when
it changed. -/
def updateText (inst : Instance) (newNode : VNode) : RecM Instance := fun c =>
  match inst.dom with
  | none => (.error (.broken "TEXT instance has no Text DOM"), c)
  | some dm =>
    if (aget c.dom.text dm).isNone then (.error (.broken "TEXT instance has no Text DOM"), c)
    else
      let newValue := newNode.nodeValue
      let d := if c.dom.textOf dm ≠ newValue then c.dom.setTextOp dm newValue else c.dom
      (.ok (Instance.mk .text (some dm) newNode inst.children inst.key inst.path),
        { c with dom := d })

/-- The `try { component(props) } finally { componentStack.pop() }` of
`mountComponent`/`updateComponent` (reconciler.ts lines 81-88 and
204-211): hook calls and the view run with the path pushed; the stack is
popped even when the body throws, and the exception is rethrown. -/
def runComponentBody (cdef : CompDef) (props : List (String × Value)) : RecM (Option VNode) := fun c =>
  let r := runHookCalls cdef.hooks c
  let c2 := { r.2 with componentStack := r.2.componentStack.tail }
  match cdef.view props r.1 with
  | .error e => (.error (.thrown e), c2)
  | .ok cv => (.ok cv, c2)

/-- Build `keyedOldChildren` / `keyedOldChildrenIndices` (reconciler.ts
lines 258-267). -/
def buildKeyed (old : List (Option Instance)) : List (Value × Instance) × List (Value × Nat) :=
  old.enum.foldl (fun acc e =>
    match e.2 with
    | some oc =>
      match oc.key with
      | some k => (aset acc.1 k oc, aset acc.2 k e.1)
      | none => acc
    | none => acc) ([], [])

/-- The positional scan of reconciler.ts lines 304-315: the first unused old
child with exactly matching `(type, key)`. -/
def findPositional (old : List (Option Instance)) (used : List Nat) (ty : NType)
    (key : Option Value) : Option Nat :=
  old.enum.findSome? (fun e =>
    if !(smem used e.1) then
      match e.2 with
      | some oc => if oc.node.ty = ty && oc.key = key then some e.1 else none
      | none => none
    else none)

/-- The back-to-front placement loop of `reconcileChildren` (reconciler.ts
lines 333-353), fed the new instances in reverse index order: an instance
whose first host node is under the wrong parent, or whose next sibling
differs from the maintained anchor, is detached and reinserted before the
anchor. -/
def moveLoop (fuel container : Nat) : List (Option Instance) → Option Nat → Dom → Dom
  | [], _, d => d
  | none :: rest, anchor, d => moveLoop fuel container rest anchor d
  | some inst :: rest, anchor, d =>
    match getFirstDom fuel (some inst) with
    | none => moveLoop fuel container rest anchor d
    | some firstDom =>
      let currentParent := d.parentOf firstDom
      let needsMove : Bool := !(currentParent = some container) ||
        (match anchor with
         | some a => !(d.nextSibling firstDom = some a)
         | none => false)
      let d := if needsMove then
          insertInstance fuel (removeInstance fuel d container (some inst)) container (some inst)
            anchor
        else d
      moveLoop fuel container rest (some firstDom) d

/-- The final unmount loop of `reconcileChildren` (reconciler.ts lines
355-363): detach every old child not matched by any new child (DOM removal
only; state cleanup is `render`'s job). -/
def removeUnused (fuel container : Nat) (old : List (Option Instance)) (used : List Nat)
    (d : Dom) : Dom :=
  old.enum.foldl (fun d e =>
    if !(smem used e.1) then
      match e.2 with
      | some oc => removeInstance fuel d container (some oc)
      | none => d
    else d) d

mutual

/-- `reconcile` (reconciler.ts lines 387-437): unmount on null node, mount
when no instance, remount on type/key change, else in-place update by
kind.  All functions of this block take the recursion fuel as their first
argument and consume one unit per call, keeping the mutual recursion
structural (so it computes by kernel reduction); fuel exhaustion yields
`RErr.fuelOut` and every theorem supplies ample fuel. -/
def reconcile (env : CompEnv) : Nat → Nat → Option Instance → Option VNode → String →
    RecM (Option Instance)
  | 0, _, _, _, _ => throwR .fuelOut
  | fuel + 1, parentDom, instO, nodeO, path =>
    match nodeO with
    | none => do
      match instO with
      | some inst => modDom (fun d => removeInstance (fuel + 1) d parentDom (some inst))
      | none => pure ()
      pure none
    | some node =>
      match instO with
      | none =>
        match node.ty with
        | .text => do
          let i ← mountText (fuel + 1) parentDom node path
          pure (some i)
        | .fragment => do
          let i ← mountFragment env fuel parentDom node path
          pure (some i)
        | .comp _ => do
          let i ← mountComponent env fuel parentDom node path
          pure (some i)
        | .host _ => do
          let i ← mountHost env fuel parentDom node path
          pure (some i)
      | some inst =>
        if inst.node.ty ≠ node.ty || inst.key ≠ node.key then do
          modDom (fun d => removeInstance (fuel + 1) d parentDom (some inst))
          reconcile env fuel parentDom none (some node) path
        else
          match inst.kind with
          | .host => do
            let i ← updateHost env fuel parentDom inst node
            pure (some i)
          | .text => do
            let i ← updateText inst node
            pure (some i)
          | .component => do
            let i ← updateComponent env fuel parentDom inst node
            pure (some i)
          | .fragment => do
            let i ← updateFragment env fuel parentDom inst node
            pure (some i)
  termination_by structural fuel _ _ _ _ => fuel

/-- `mountHost` (reconciler.ts lines 17-46). -/
def mountHost (env : CompEnv) : Nat → Nat → VNode → String → RecM Instance
  | 0, _, _, _ => throwR .fuelOut
  | fuel + 1, parentDom, node, path => do
    let tag := match node.ty with | .host t => t | _ => ""
    let id ← allocElement tag
    modDom (fun d => setDomProps d id node.props)
    let kids ← mountKids env fuel id path 0 node.children
    let inst := Instance.mk .host (some id) node kids node.key path
    modDom (fun d => insertInstance (fuel + 1) d parentDom (some inst))
    pure inst
  termination_by structural fuel _ _ _ => fuel

/-- `mountComponent` (reconciler.ts lines 72-109): push the path, record the
visited path, reset the cursor, run the component (stack popped even on
throw), then reconcile the single returned child. -/
def mountComponent (env : CompEnv) : Nat → Nat → VNode → String → RecM Instance
  | 0, _, _, _ => throwR .fuelOut
  | fuel + 1, parentDom, node, path => do
    match node.ty with
    | .comp cid =>
      let cdef := env cid
      modCtx (fun c => { c with
        componentStack := path :: c.componentStack
        cursor := aset c.cursor path 0
        visited := sadd c.visited path })
      let childVNode ← runComponentBody cdef node.props
      match childVNode with
      | some cv => do
        let childPath := createChildPath path cv.key 0
        let childInstance ← reconcile env fuel parentDom none (some cv) childPath
        pure (Instance.mk .component (getFirstDom (fuel + 1) childInstance) node [childInstance]
          node.key path)
      | none => pure (Instance.mk .component none node [] node.key path)
    | _ => throwR (.broken "mountComponent on non-component")
  termination_by structural fuel _ _ _ => fuel

/-- `mountFragment` (reconciler.ts lines 114-138). -/
def mountFragment (env : CompEnv) : Nat → Nat → VNode → String → RecM Instance
  | 0, _, _, _ => throwR .fuelOut
  | fuel + 1, parentDom, node, path => do
    let kids ← mountKids env fuel parentDom path 0 node.children
    pure (Instance.mk .fragment (getFirstDomFromChildren (fuel + 1) kids) node kids node.key path)
  termination_by structural fuel _ _ _ => fuel

/-- The `childNodes.map((child, index) => ...)` of `mountHost` and
`mountFragment`: mount each child at its child path. -/
def mountKids (env : CompEnv) : Nat → Nat → String → Nat → List VNode →
    RecM (List (Option Instance))
  | 0, _, _, _, _ => throwR .fuelOut
  | _ + 1, _, _, _, [] => pure []
  | fuel + 1, parentDom, path, idx, v :: rest => do
    let childPath := createChildPath path v.key idx
    let ci ← reconcile env fuel parentDom none (some v) childPath
    let others ← mountKids env fuel parentDom path (idx + 1) rest
    pure (ci :: others)
  termination_by structural fuel _ _ _ _ => fuel

/-- `updateHost` (reconciler.ts lines 143-168): structural assertions, prop
diff, keyed children reconciliation, in-place field updates. -/
def updateHost (env : CompEnv) : Nat → Nat → Instance → VNode → RecM Instance
  | 0, _, _, _ => throwR .fuelOut
  | fuel + 1, parentDom, inst, newNode => do
    match inst.dom with
    | none => throwR (.broken "HOST instance has no DOM")
    | some dm => do
      let c ← getCtx
      if (aget c.dom.tags dm).isNone then
        throwR (.broken "HOST instance DOM is not an HTMLElement")
      else do
        modDom (fun d => updateDomProps d dm inst.node.props newNode.props)
        let newKids ← reconcileChildren env fuel parentDom dm inst.children newNode.children
          inst.path
        pure (Instance.mk .host (some dm) newNode newKids inst.key inst.path)
  termination_by structural fuel _ _ _ => fuel

/-- `updateComponent` (reconciler.ts lines 195-228): re-invoke at the same
path (stack popped even on throw), then reconcile the returned child
against the previous single child. -/
def updateComponent (env : CompEnv) : Nat → Nat → Instance → VNode → RecM Instance
  | 0, _, _, _ => throwR .fuelOut
  | fuel + 1, parentDom, inst, newNode => do
    match newNode.ty with
    | .comp cid =>
      let cdef := env cid
      let path := inst.path
      modCtx (fun c => { c with
        componentStack := path :: c.componentStack
        cursor := aset c.cursor path 0
        visited := sadd c.visited path })
      let childVNode ← runComponentBody cdef newNode.props
      let oldChild := (inst.children.head?).getD none
      let childPath := match childVNode with
        | some cv => createChildPath path cv.key 0
        | none =>
          match oldChild with
          | some oc => oc.path
          | none => createChildPath path none 0
      let newChild ← reconcile env fuel parentDom oldChild childVNode childPath
      pure (Instance.mk .component (getFirstDom (fuel + 1) newChild) newNode [newChild] inst.key
        path)
    | _ => throwR (.broken "updateComponent on non-component")
  termination_by structural fuel _ _ _ => fuel

/-- `updateFragment` (reconciler.ts lines 233-245). -/
def updateFragment (env : CompEnv) : Nat → Nat → Instance → VNode → RecM Instance
  | 0, _, _, _ => throwR .fuelOut
  | fuel + 1, parentDom, inst, newNode => do
    let newKids ← reconcileChildren env fuel parentDom parentDom inst.children newNode.children
      inst.path
    pure (Instance.mk .fragment (getFirstDomFromChildren (fuel + 1) newKids) newNode newKids
      inst.key inst.path)
  termination_by structural fuel _ _ _ => fuel

/-- `reconcileChildren` (reconciler.ts lines 251-366): keyed lookup maps,
back-to-front matching loop, back-to-front placement loop, unmount of
unmatched old children. -/
def reconcileChildren (env : CompEnv) : Nat → Nat → Nat → List (Option Instance) → List VNode →
    String → RecM (List (Option Instance))
  | 0, _, _, _, _, _ => throwR .fuelOut
  | fuel + 1, parentDom, containerDom, oldChildren, newChildren, parentPath => do
    let _ := parentDom
    let maps := buildKeyed oldChildren
    let r ← rcLoop env fuel containerDom oldChildren maps.1 maps.2 parentPath
      newChildren.enum.reverse []
    modDom (moveLoop (fuel + 1) containerDom r.1.reverse none)
    modDom (removeUnused (fuel + 1) containerDom oldChildren r.2)
    pure r.1
  termination_by structural fuel _ _ _ _ _ => fuel

/-- The back-to-front matching loop of `reconcileChildren` (reconciler.ts
lines 276-331), fed the enumerated new children in reverse index order; a
key present in the keyed map wins, otherwise the positional `(type, key)`
scan runs; returns the new instances in index order plus the used-index
set. -/
def rcLoop (env : CompEnv) : Nat → Nat → List (Option Instance) → List (Value × Instance) →
    List (Value × Nat) → String → List (Nat × VNode) → List Nat →
    RecM (List (Option Instance) × List Nat)
  | 0, _, _, _, _, _, _, _ => throwR .fuelOut
  | _ + 1, _, _, _, _, _, [], used => pure ([], used)
  | fuel + 1, containerDom, oldChildren, keyed, keyedIdx, parentPath, (i, newChild) :: rest,
      used => do
    let keyHit : Option (Instance × Nat) :=
      match newChild.key with
      | some k =>
        match aget keyed k, aget keyedIdx k with
        | some oi, some oidx => some (oi, oidx)
        | _, _ => none
      | none => none
    let step : RecM (Option Instance × List Nat) :=
      match keyHit with
      | some (oldInstance, oldIndex) =>
        let used2 := sadd used oldIndex
        if oldInstance.node.ty = newChild.ty then do
          let ni ← reconcile env fuel containerDom (some oldInstance) (some newChild)
            (createChildPath parentPath newChild.key i)
          pure (ni, used2)
        else do
          modDom (fun d => removeInstance (fuel + 1) d containerDom (some oldInstance))
          let ni ← reconcile env fuel containerDom none (some newChild)
            (createChildPath parentPath newChild.key i)
          pure (ni, used2)
      | none =>
        match findPositional oldChildren used newChild.ty newChild.key with
        | some j => do
          let used2 := sadd used j
          let oldInstance := ((oldChildren.get? j).getD none).getD
            (Instance.mk .host none newChild [] none "")
          let ni ← reconcile env fuel containerDom (some oldInstance) (some newChild)
            (createChildPath parentPath newChild.key i)
          pure (ni, used2)
        | none => do
          let ni ← reconcile env fuel containerDom none (some newChild)
            (createChildPath parentPath newChild.key i)
          pure (ni, used)
    let s ← step
    let r ← rcLoop env fuel containerDom oldChildren keyed keyedIdx parentPath rest s.2
    pure (r.1 ++ [s.1], r.2)
  termination_by structural fuel _ _ _ _ _ _ _ => fuel

end

mutual

/-- `cleanupInstanceBeforeClear` (render.ts lines 137-171): walk the previous
instance tree; for every component-kind instance, add its path to the
cleanup set and run its stored effect cleanups (errors caught and
ignored).  Fuelled like `getDomNodes`. -/
def cleanupIBC : Nat → Option Instance → List String × Ctx → List String × Ctx
  | 0, _, acc => acc
  | _ + 1, none, acc => acc
  | fuel + 1, some (.mk k _ _ cs _ path), acc =>
    let acc :=
      if k = NKind.component then
        let paths2 := sadd acc.1 path
        let c2 : Ctx := match aget acc.2.state path with
          | some hooks => { acc.2 with runLog := runCleanups hooks acc.2.runLog }
          | none => acc.2
        (paths2, c2)
      else acc
    cleanupIBCList fuel cs acc

/-- Children part of `cleanupInstanceBeforeClear`. -/
def cleanupIBCList : Nat → List (Option Instance) → List String × Ctx → List String × Ctx
  | 0, _, acc => acc
  | _ + 1, [], acc => acc
  | fuel + 1, c :: rest, acc => cleanupIBCList fuel rest (cleanupIBC fuel c acc)

end

mutual

/-- `collectPathsFromInstance` (render.ts lines 216-226): every
component-kind path of the previous tree, added to the visited set.
Fuelled like `getDomNodes`. -/
def collectPaths : Nat → Option Instance → List String → List String
  | 0, _, v => v
  | _ + 1, none, v => v
  | fuel + 1, some (.mk k _ _ cs _ path), v =>
    let v := if k = NKind.component then sadd v path else v
    collectPathsList fuel cs v

/-- Children part of `collectPathsFromInstance`. -/
def collectPathsList : Nat → List (Option Instance) → List String → List String
  | 0, _, v => v
  | _ + 1, [], v => v
  | fuel + 1, c :: rest, v => collectPathsList fuel rest (collectPaths fuel c v)

end

/-- `render` (render.ts lines 177-290): run the previous tree's effect
cleanups and mark those paths (and their state sub-paths) visited, drop
their queued effects, keep state only for visited paths, reconcile the
root at path "0", store the new root instance, re-filter the effect queue
against the cleaned paths, garbage-collect unused hooks, clear the visited
set.  The effect flush is only scheduled by `render` (`flushEffects`
defers to a microtask); the flush itself is `executeEffects`, invoked
separately at the scheduling boundary. -/
def render (env : CompEnv) (fuel : Nat) : RecM Unit := fun c =>
  let oldInstance := c.rootInstance
  let r0 := cleanupIBC fuel oldInstance ([], c)
  let pathsToCleanup := r0.1
  let c := r0.2
  let c : Ctx :=
    if oldInstance.isSome then
      let vis := pathsToCleanup.foldl (fun v p =>
        let v := sadd v p
        c.state.foldl (fun v e => if strStarts (p ++ ".") e.1 then sadd v e.1 else v) v)
        c.visited
      { c with
        visited := vis
        effQueue := c.effQueue.filter (fun pc =>
          !(smem pathsToCleanup pc.1 || isUnderSome pathsToCleanup pc.1)) }
    else c
  let cleanupedPaths := pathsToCleanup
  let c : Ctx :=
    if oldInstance.isSome then { c with visited := collectPaths fuel oldInstance c.visited } else c
  let dels := (c.state.filter (fun e => !(smem c.visited e.1))).map Prod.fst
  let c : Ctx := { c with
    state := c.state.filter (fun e => smem c.visited e.1)
    cursor := dels.foldl adel c.cursor
    componentStack := [] }
  match c.rootContainer with
  | none => (.ok (), c)
  | some container =>
    match reconcile env fuel container oldInstance c.rootNode "0" c with
    | (.error e, c2) => (.error e, c2)
    | (.ok newInstance, c2) =>
      let c2 := { c2 with rootInstance := newInstance }
      let c2 : Ctx :=
        if cleanupedPaths.isEmpty then c2
        else { c2 with effQueue := c2.effQueue.filter (fun pc =>
          !(smem cleanupedPaths pc.1 || isUnderSome cleanupedPaths pc.1)) }
      let c2 := cleanupUnusedHooks c2
      (.ok (), { c2 with visited := [] })

/-- `setup` (setup.ts lines 13-40): validate the container and the root
node, clear any previous tree and the container, reset the context
(`context.hooks.clear()` / `context.root.reset` are modelled from the
spec's "clears any prior tree under the container, resets all core state",
context.ts not being under src/), then render synchronously. -/
def setup (env : CompEnv) (fuel : Nat) (rootNode : Option VNode) (container : Option Nat) :
    RecM Unit := fun c =>
  match container with
  | none => (.error (.broken "no container provided"), c)
  | some ct =>
    match rootNode with
    | none => (.error (.broken "root node is null"), c)
    | some rn =>
      let c : Ctx := match c.rootInstance with
        | some prev => { c with dom := removeInstance fuel c.dom ct (some prev) }
        | none => c
      let c : Ctx := { c with dom := c.dom.clearContainerOp ct }
      let c : Ctx := { c with
        state := [], cursor := [], visited := [], componentStack := []
        rootContainer := some ct, rootNode := some rn, rootInstance := none
        effQueue := [] }
      render env fuel c

/-! ### Concrete scenario material shared by the theorems -/

/-- A fresh document holding only the root container (id 0). -/
def dom0 : Dom :=
  { nextId := 1, kids := [(0, [])], text := [], tags := [(0, "root")], log := [] }

/-- The engine context right after process start. -/
def ctx0 : Ctx :=
  { state := [], cursor := [], visited := [], componentStack := [], effQueue := []
    runLog := [], dom := dom0, rootContainer := some 0, rootNode := none
    rootInstance := none }

/-- A component environment with no meaningful components. -/
def envEmpty : CompEnv := fun _ => { hooks := [], view := fun _ _ => .ok none }

/-- A host VNode with a tag, a key and no props or children. -/
def hostV (tag : String) (key : Option Value) : VNode := .mk (.host tag) key [] [] ""

/-- The slot write a state setter performs on a render-triggering call
(hooks.ts line 106, `hooks[cursor] = newValue`), used to drive multi-pass
scenarios: flipping a component's stored state between renders exactly as
its setter would. -/
def applySet (path : String) (cursor : Nat) (v : Value) (c : Ctx) : Ctx :=
  { c with state := aset c.state path (slotSet ((aget c.state path).getD []) cursor (.val v)) }

/-! ### C10 — setup validation precedes all mutation -/

/-- C10: when the container argument is falsy or the root VNode is null,
`setup` throws an Error before mutating anything: the rendered tree, hook
store, effect queue, and document are all returned unchanged (the error
branch returns the input context itself). -/
theorem setup_invalid_throws_without_mutation (env : CompEnv) (fuel : Nat)
    (rootNode : Option VNode) (container : Option Nat) (c : Ctx)
    (h : container = none ∨ rootNode = none) :
    ∃ msg, setup env fuel rootNode container c = (.error (.broken msg), c) := by
  match container, rootNode with
  | none, _ => exact ⟨"no container provided", rfl⟩
  | some ct, none => exact ⟨"root node is null", rfl⟩
  | some ct, some rn => simp at h

/-- Witness for C10: `setup` on a null root node with a valid container
errors and leaves the fresh context untouched. -/
theorem setup_invalid_throws_without_mutation_witness :
    ∃ msg, setup envEmpty 5 none (some 0) ctx0 = (.error (.broken msg), ctx0) :=
  setup_invalid_throws_without_mutation envEmpty 5 none (some 0) ctx0 (Or.inr rfl)

/-! ### C1 — a component throwing during reconcile -/

/-- A component environment in which every component function immediately
throws the exception `e` (before any hook call). -/
def throwerEnv (e : Nat) : CompEnv := fun _ => { hooks := [], view := fun _ _ => .error e }

/-- A component environment whose components all throw error id 42. -/
def envThrowing : CompEnv := throwerEnv 42

/-- A VNode whose type is a throwing component function. -/
def throwingV : VNode := .mk (.comp 5) none [] [] ""

/-- Counterexample to C1: the exception of a throwing component is NOT
caught at the call site — `mountComponent`/`updateComponent` use
`try`/`finally` with no `catch`, so reconcile of a concrete throwing
component propagates the exception (aborting the render pass) instead of
treating the component as rendering no child. -/
theorem reconcile_component_throw_propagates :
    (reconcile envThrowing 10 0 none (some throwingV) "p" ctx0).1 = .error (.thrown 42) := by
  rfl

/-- C1 as amended: a component function that throws during mount or update
propagates its exception out of `reconcile` (the render pass aborts), but
the `finally` clause guarantees the active-invocation component stack is
popped back to its pre-call value; the path is still recorded as visited
and its cursor reset, and no instance is produced.  Stated for a component
throwing `e` before any hook call, over an arbitrary context, for both the
mount call site (no previous instance) and the update call site (previous
instance of the same component type and key). -/
theorem reconcile_component_throw_aborts_with_stack_popped
    (cid e fuel parentDom : Nat) (path : String) (c : Ctx) (vkey : Option Value)
    (props : List (String × Value)) (prevChildren : List (Option Instance))
    (prevDom : Option Nat) (prevProps : List (String × Value)) :
    reconcile (throwerEnv e) (fuel + 2) parentDom none
        (some (.mk (.comp cid) vkey props [] "")) path c =
      (.error (.thrown e),
        { c with cursor := aset c.cursor path 0, visited := sadd c.visited path }) ∧
    reconcile (throwerEnv e) (fuel + 2) parentDom
        (some (.mk .component prevDom (.mk (.comp cid) vkey prevProps [] "") prevChildren vkey
          path))
        (some (.mk (.comp cid) vkey props [] "")) path c =
      (.error (.thrown e),
        { c with cursor := aset c.cursor path 0, visited := sadd c.visited path }) := by
  refine ⟨rfl, ?_⟩
  have hb : (decide ¬(NType.comp cid = NType.comp cid) || decide ¬(vkey = vkey)) = false := by
    simp
  simp only [reconcile, Instance.node, Instance.key, Instance.kind, VNode.ty, VNode.key, ne_eq,
    hb, Bool.false_eq_true, if_false]
  rfl

/-- Witness for C1's amended theorem at a concrete throwing component,
concrete context, and both call sites. -/
theorem reconcile_component_throw_aborts_with_stack_popped_witness :
    reconcile (throwerEnv 42) 10 0 none (some (.mk (.comp 5) none [] [] "")) "p" ctx0 =
      (.error (.thrown 42),
        { ctx0 with cursor := aset ctx0.cursor "p" 0, visited := sadd ctx0.visited "p" }) ∧
    reconcile (throwerEnv 42) 10 0
        (some (.mk .component none (.mk (.comp 5) none [] [] "") [] none "p"))
        (some (.mk (.comp 5) none [] [] "")) "p" ctx0 =
      (.error (.thrown 42),
        { ctx0 with cursor := aset ctx0.cursor "p" 0, visited := sadd ctx0.visited "p" }) :=
  reconcile_component_throw_aborts_with_stack_popped 5 42 8 0 "p" ctx0 none [] [] none []

/-! ### C3 — type/key change at the same position -/

/-- Component environment for the type-change scenario: a root component
(id 0) that renders component A (id 1, `useState 10`) while its own state
flag is true and component B (id 2, `useState 99`) afterwards; A and B
both carry key "x", so the child path is "0.x" in both passes. -/
def envTypeChange : CompEnv := fun i =>
  if i = 0 then
    { hooks := [.hUseState (.bool true)]
      view := fun _ vals =>
        match vals.head? with
        | some (.bool true) => .ok (some (.mk (.comp 1) (some (.str "x")) [] [] ""))
        | _ => .ok (some (.mk (.comp 2) (some (.str "x")) [] [] "")) }
  else if i = 1 then { hooks := [.hUseState (.num 10)], view := fun _ _ => .ok none }
  else { hooks := [.hUseState (.num 99)], view := fun _ _ => .ok none }

/-- Root VNode of the type-change scenario. -/
def rootSwitchV : VNode := .mk (.comp 0) none [] [] ""

/-- First pass: mounts root and component A at path "0.x". -/
def c3pass1 : Except RErr Unit × Ctx := setup envTypeChange 20 (some rootSwitchV) (some 0) ctx0

/-- Second pass after flipping the root's state flag: A is replaced by B
(different component type, same key) at the same path. -/
def c3pass2 : Except RErr Unit × Ctx :=
  render envTypeChange 20 (applySet "0" 0 (.bool false) c3pass1.2)

set_option maxHeartbeats 4000000 in
/-- Counterexample to C3: after the type change at path "0.x" (component A
with state 10 replaced by component B whose `useState` initializer is 99),
the freshly mounted B does NOT start with empty hook state — the hook
store still holds A's value 10 at that path, and B's `useState` read it
(slot untouched instead of re-initialized to 99). -/
theorem type_change_remount_inherits_state :
    c3pass1.1 = .ok () ∧ c3pass2.1 = .ok () ∧
    aget c3pass2.2.state "0.x" = some [.val (.num 10)] :=
  ⟨rfl, rfl, rfl⟩

/-- The host VNodes of the div-to-span remount scenario. -/
def divX : VNode := hostV "div" (some (.str "x"))

/-- The span VNode replacing `divX` at the same key. -/
def spanX : VNode := hostV "span" (some (.str "x"))

/-- Mount of `divX` at path "0.x". -/
def c3host1 : Except RErr (Option Instance) × Ctx :=
  reconcile envEmpty 10 0 none (some divX) "0.x" ctx0

/-- Reconcile of `spanX` against the mounted `divX` instance. -/
def c3host2 : Except RErr (Option Instance) × Ctx :=
  match c3host1 with
  | (.ok inst, c) => reconcile envEmpty 10 0 inst (some spanX) "0.x" c
  | r => r

set_option maxHeartbeats 4000000 in
/-- C3 as amended: a type or key change at the same Path detaches the old
subtree's host nodes and mounts the new node fresh at the same Path
(`<div key="x">` to `<span key="x">` removes host node 1 and creates a
fresh node 2 of kind host at the same path) — but the hook state rooted at
that Path is NOT deleted: a component remounted after a type change at the
same position and key inherits the previous component's slots (here B
reads A's 10 instead of initializing to 99), because every previous
component path is marked visited before state pruning and
`cleanupUnusedHooks` skips visited paths. -/
theorem type_change_detaches_host_but_keeps_state :
    c3host1.1 = .ok (some (Instance.mk .host (some 1) divX [] (some (.str "x")) "0.x")) ∧
    c3host2.1 = .ok (some (Instance.mk .host (some 2) spanX [] (some (.str "x")) "0.x")) ∧
    c3host2.2.dom.log =
      [.createEl 1 "div", .appendChild 0 1,
       .removeChild 0 1, .createEl 2 "span", .appendChild 0 2] ∧
    c3host2.2.dom.kids = [(0, [2]), (1, []), (2, [])] ∧
    c3pass2.1 = .ok () ∧
    aget c3pass2.2.state "0.x" = some [.val (.num 10)] :=
  ⟨rfl, rfl, rfl, rfl, rfl, rfl⟩

/-! ### C4 — cleanup and state removal for a component rendered away -/

/-- Component environment for the orphan scenario: a root component (id 0)
that renders component C (id 1) while its own flag is true and renders
nothing afterwards; C declares one effect (id 7, deps `[]`). -/
def envOrphan : CompEnv := fun i =>
  if i = 0 then
    { hooks := [.hUseState (.bool true)]
      view := fun _ vals =>
        match vals.head? with
        | some (.bool true) => .ok (some (.mk (.comp 1) none [] [] ""))
        | _ => .ok none }
  else { hooks := [.hUseEffect 7 (some [])], view := fun _ _ => .ok none }

/-- Effect behaviour for the orphan scenario: effect 7 installs cleanup 99. -/
def effEnvOrphan : EffEnv := fun _ => { pushes := [], newCleanup := some 99, throws := false }

/-- Pass 1: mounts root and C (C's path is "0.0"); C's effect is queued. -/
def c4pass1 : Except RErr Unit × Ctx :=
  setup envOrphan 20 (some (.mk (.comp 0) none [] [] "")) (some 0) ctx0

/-- The effect flush after pass 1: effect 7 runs and stores cleanup 99. -/
def c4flushed : Ctx := executeEffects effEnvOrphan c4pass1.2

/-- Pass 2 after flipping the root's flag: C is removed from the tree (the
root now renders nothing). -/
def c4pass2 : Except RErr Unit × Ctx :=
  render envOrphan 20 (applySet "0" 0 (.bool false) c4flushed)

/-- Pass 3: one more full render pass after the removal. -/
def c4pass3 : Except RErr Unit × Ctx := render envOrphan 20 c4pass2.2

set_option maxHeartbeats 4000000 in
/-- Counterexample to C4: component C (path "0.0") is removed from the
tree in pass 2, yet after the whole of pass 3 its hook state entry is
still present in the store — the state is NOT removed before the next
render pass can reuse that path.  (`render` marks every state path below
a surviving component path as visited, so orphaned state under the
root component is never pruned.) -/
theorem orphan_state_not_removed_before_reuse :
    c4pass1.1 = .ok () ∧ c4pass2.1 = .ok () ∧ c4pass3.1 = .ok () ∧
    aget c4pass3.2.state "0.0" = some [.eff (some []) (some 99) 7] :=
  ⟨rfl, rfl, rfl, rfl⟩

set_option maxHeartbeats 4000000 in
/-- C4 as amended: when a component is removed from the tree between two
render passes, its pending effect cleanups run exactly once — in the
removal pass via `cleanupInstanceBeforeClear`, with `cleanupUnusedHooks`
skipping the path because it was marked visited (the full run logs after
pass 2 and pass 3 contain cleanup 99 exactly once, with no further run in
pass 3) — but its hook state is NOT removed while an ancestor component
path survives: the path "0.0" (below the surviving root component path
"0") keeps its entry through pass 3, available to be inherited by any
unrelated node later mounted at that path. -/
theorem orphan_cleanup_runs_once_state_retained :
    c4flushed.runLog = [.effectRun 7] ∧
    c4pass2.2.runLog = [.effectRun 7, .cleanupRun 99] ∧
    c4pass3.2.runLog = [.effectRun 7, .cleanupRun 99] ∧
    aget c4pass2.2.state "0.0" = some [.eff (some []) (some 99) 7] ∧
    aget c4pass3.2.state "0.0" = some [.eff (some []) (some 99) 7] ∧
    c4pass3.1 = .ok () :=
  ⟨rfl, rfl, rfl, rfl, rfl, rfl⟩

/-! ### C2 — keyed reorder reuses instances and moves host nodes -/

/-- A keyed list item, as in the spec's end-to-end scenario (all children
share the host type "li", so only the keys distinguish them — a purely
positional/type match would pair them by position; the keyed lookup must
win). -/
def liV (k : Int) : VNode := hostV "li" (some (.num k))

/-- The instance of A(key=1) produced by mounting [A(1), B(2), C(3)] into
container 0 (the mount pass of `reconcileChildren` walks backwards, so C
receives host node 1, B node 2, A node 3; the placement loop then fixes
the order). -/
def liInst1 : Instance := .mk .host (some 3) (liV 1) [] (some (.num 1)) "0.1"

/-- The instance of B(key=2) produced by the mount. -/
def liInst2 : Instance := .mk .host (some 2) (liV 2) [] (some (.num 2)) "0.2"

/-- The instance of C(key=3) produced by the mount. -/
def liInst3 : Instance := .mk .host (some 1) (liV 3) [] (some (.num 3)) "0.3"

/-- The document after the mount, with the mutation log cleared so that the
reorder pass's mutations can be read off alone. -/
def c2dom : Dom :=
  { nextId := 4
    kids := [(0, [3, 2, 1]), (1, []), (2, []), (3, [])]
    text := []
    tags := [(0, "root"), (1, "li"), (2, "li"), (3, "li")]
    log := [] }

/-! C2's theorem needs the `Mirrors` machinery of the C8 section and is
stated there (`keyed_reorder_reuses_instances_universally`); the defs above
feed its witness. -/

/-! ### C5 — useEffect dependency gating -/

/-- One component invocation that calls `useEffect effId deps` exactly once:
the cursor reset and stack push performed by mount/updateComponent, the
hook call, then the stack pop. -/
def invokeEffectOnce (p : String) (effId : Nat) (deps : Option (List Value)) (c : Ctx) : Ctx :=
  let c := { c with componentStack := p :: c.componentStack, cursor := aset c.cursor p 0 }
  let c := useEffectR effId deps c
  { c with componentStack := c.componentStack.tail }

/-- `n` successive invocations of that component. -/
def invokeEffectN (p : String) (effId : Nat) (deps : Option (List Value)) : Nat → Ctx → Ctx
  | 0, c => c
  | n + 1, c => invokeEffectN p effId deps n (invokeEffectOnce p effId deps c)

/-- The context after the first invocation of a component declaring one
effect with deps = [] (effect id 7), starting from the fresh context: the
effect is queued once and every further invocation is a no-op on the
store and the queue. -/
def c5fix : Ctx :=
  { ctx0 with
    state := [("q", [.eff (some []) none 7])]
    cursor := [("q", 1)]
    effQueue := [("q", 0)] }

/-- C5: `useEffect` queueing at a path and cursor — (first) when the slot
holds no previous effect record, the effect is queued; (always) when
`deps` is undefined, it is queued on every render; (gated) when both the
new and the stored deps are arrays, it is queued exactly when the shallow
element-wise comparison differs; and (once) a component invoked any number
of times with one `deps = []` effect queues it exactly once across its
lifetime. -/
theorem useEffect_queue_gating (c : Ctx) (p : String) (rest : List String)
    (effId : Nat) (deps : Option (List Value)) (cur : Nat) (hooks : List Slot)
    (hstack : c.componentStack = p :: rest)
    (hcur : (aget c.cursor p).getD 0 = cur)
    (hhooks : (aget c.state p).getD [] = hooks) :
    (prevEffectAt hooks cur = none →
      (useEffectR effId deps c).effQueue = c.effQueue ++ [(p, cur)]) ∧
    (deps = none → (useEffectR effId deps c).effQueue = c.effQueue ++ [(p, cur)]) ∧
    (∀ pd cl e ds, prevEffectAt hooks cur = some (some pd, cl, e) → deps = some ds →
      (useEffectR effId deps c).effQueue =
        (if shallowEquals pd ds then c.effQueue else c.effQueue ++ [(p, cur)])) ∧
    (∀ n, (invokeEffectN "q" 7 (some []) (n + 1) ctx0).effQueue = [("q", 0)]) := by
  have hpath : c.currentPath = p := by simp [Ctx.currentPath, hstack]
  have hc : c.currentCursor = cur := by simp [Ctx.currentCursor, hpath, hcur]
  refine ⟨?_, ?_, ?_, ?_⟩
  · intro hprev
    simp [useEffectR, hpath, hc, hhooks, hprev, effectShouldRun]
  · intro hdeps
    subst hdeps
    cases hp : prevEffectAt hooks cur with
    | none => simp [useEffectR, hpath, hc, hhooks, hp, effectShouldRun]
    | some t =>
      obtain ⟨pd, cl, e⟩ := t
      simp [useEffectR, hpath, hc, hhooks, hp, effectShouldRun]
  · intro pd cl e ds hprev hdeps
    subst hdeps
    by_cases hse : shallowEquals pd ds
    · simp [useEffectR, hpath, hc, hhooks, hprev, effectShouldRun, hse]
    · simp [useEffectR, hpath, hc, hhooks, hprev, effectShouldRun, hse]
  · have hfix : invokeEffectOnce "q" 7 (some []) c5fix = c5fix := rfl
    have hstep : invokeEffectOnce "q" 7 (some []) ctx0 = c5fix := rfl
    have hiter : ∀ n, invokeEffectN "q" 7 (some []) n c5fix = c5fix := by
      intro n
      induction n with
      | zero => rfl
      | succ k ih =>
        show invokeEffectN "q" 7 (some []) k (invokeEffectOnce "q" 7 (some []) c5fix) = c5fix
        rw [hfix]
        exact ih
    intro n
    show (invokeEffectN "q" 7 (some []) n (invokeEffectOnce "q" 7 (some []) ctx0)).effQueue = _
    rw [hstep, hiter]
    rfl

/-- Witness for C5 at a concrete context: with the stack holding path "q"
and an empty store, a `deps = undefined` effect is queued. -/
theorem useEffect_queue_gating_witness :
    (useEffectR 7 none { ctx0 with componentStack := ["q"] }).effQueue =
      ({ ctx0 with componentStack := ["q"] } : Ctx).effQueue ++ [("q", 0)] :=
  (useEffect_queue_gating { ctx0 with componentStack := ["q"] } "q" [] 7 none 0 []
    rfl rfl rfl).2.1 rfl

/-! ### C6, C7 — the state setter closure

The setter returned by `useState` closes over the live hooks ARRAY (the
`hooks` local of hooks.ts line 82), the slot index, and the VALUE it read
at render time (`state`, line 92).  To express that faithfully the store
is modelled with the aliasing made explicit: a heap of array objects and
the path-to-array map; `state.delete(path)` drops only the map entry while
the array object stays alive for the closures. -/

namespace SetterModel

/-- JS array write over value slots (`hooks[cursor] = newValue`). -/
def slotSetV (l : List Value) (i : Nat) (v : Value) : List Value :=
  if i < l.length then l.set i v
  else l ++ List.replicate (i - l.length) .undef ++ [v]

/-- The aliased Hook Store as the setter closures see it: `heap` maps array
references to live hooks arrays (state-value slots, the case setters
touch), `pathRef` is the `context.hooks.state` map sending each Path to
its array, and `renderRequests` counts `enqueueRender` calls. -/
structure Store where
  heap : List (Nat × List Value)
  pathRef : List (String × Nat)
  renderRequests : Nat
  deriving DecidableEq, Repr

/-- The argument a setter accepts (hooks.ts line 95): a next value, or an
updater function of the previous value. -/
inductive NextArg where
  | val (v : Value)
  | fn (f : Value → Value)

/-- The `newValue` computation of `setState` (hooks.ts line 97): an updater
function is applied to the CAPTURED `state` value, not the live slot. -/
def nextValueOf (next : NextArg) (captured : Value) : Value :=
  match next with
  | .val v => v
  | .fn f => f captured

/-- `setState` (hooks.ts lines 95-110): compute the next value,
short-circuit with no scheduled render when `Object.is(state, newValue)`
holds for the CAPTURED `state`, otherwise write the slot of the captured
array and call `enqueueRender`. -/
def setState (arr cursor : Nat) (captured : Value) (next : NextArg) (s : Store) : Store :=
  let newValue := nextValueOf next captured
  if captured = newValue then s
  else
    { s with
      heap := aset s.heap arr (slotSetV ((aget s.heap arr).getD []) cursor newValue)
      renderRequests := s.renderRequests + 1 }

/-- `state.delete(path)` as performed when a path's hook state is pruned:
only the map entry disappears; the array object referenced by live
setters is untouched. -/
def deletePath (path : String) (s : Store) : Store :=
  { s with pathRef := adel s.pathRef path }

end SetterModel

/-- `aget` after `adel` at the same key finds nothing. -/
theorem aget_adel {α β : Type} [DecidableEq α] (l : List (α × β)) (k : α) :
    aget (adel l k) k = none := by
  induction l with
  | nil => rfl
  | cons e rest ih =>
    by_cases he : e.1 = k
    · simpa [adel, he] using (by simpa [adel] using ih)
    · simp [adel, aget, he] at ih ⊢
      simpa [List.find?] using ih

/-- The initial store of the double-set scenario: one array (reference 0)
holding a single slot with value 0, owned by path "p". -/
def c6store : SetterModel.Store :=
  { heap := [(0, [.num 0])], pathRef := [("p", 0)], renderRequests := 0 }

/-- Counterexample to C6: the setter compares against the value it CAPTURED
when created, not the current slot value.  A setter created over slot
value 0 is called twice with 1: after the first call the slot holds 1, so
by the claim the second call (next value `Object.is`-equal to the current
slot value) must schedule no render and leave the slot unchanged — but the
code compares 1 against the captured 0 and schedules a second render. -/
theorem setter_compares_captured_not_current :
    SetterModel.setState 0 0 (.num 0) (.val (.num 1)) c6store =
      { heap := [(0, [.num 1])], pathRef := [("p", 0)], renderRequests := 1 } ∧
    SetterModel.setState 0 0 (.num 0) (.val (.num 1))
        { heap := [(0, [.num 1])], pathRef := [("p", 0)], renderRequests := 1 } =
      { heap := [(0, [.num 1])], pathRef := [("p", 0)], renderRequests := 2 } :=
  ⟨rfl, rfl⟩

/-- C6 as amended: the setter's short-circuit compares the next value
against the value captured when the setter was created (the slot value at
the owning render).  Whenever the captured value still equals the current
slot value — true in particular for the first setter call after the
render that created it — the claim's behaviour holds: an `Object.is`-equal
next value schedules no render and leaves the store unchanged, and a
different next value overwrites exactly that slot and requests exactly one
render. -/
theorem setState_identity_shortcircuit (s : SetterModel.Store) (arr cursor : Nat)
    (curval newValue : Value) (slots : List Value) (next : SetterModel.NextArg)
    (hheap : aget s.heap arr = some slots)
    (hslot : slots.get? cursor = some curval)
    (hnew : SetterModel.nextValueOf next curval = newValue) :
    (newValue = curval → SetterModel.setState arr cursor curval next s = s) ∧
    (newValue ≠ curval →
      SetterModel.setState arr cursor curval next s =
        { s with
          heap := aset s.heap arr (SetterModel.slotSetV slots cursor newValue)
          renderRequests := s.renderRequests + 1 }) := by
  constructor
  · intro he
    simp [SetterModel.setState, hnew, he]
  · intro hne
    simp [SetterModel.setState, hnew, hheap, Ne.symm hne]

/-- Witness for C6's amended theorem: a fresh setter over slot value 0
called with the identical value 0 leaves the store untouched. -/
theorem setState_identity_shortcircuit_witness :
    SetterModel.setState 0 0 (.num 0) (.val (.num 0)) c6store = c6store :=
  (setState_identity_shortcircuit c6store 0 0 (.num 0) (.num 0) [.num 0]
    (.val (.num 0)) rfl rfl rfl).1 rfl

/-- Counterexample to C7: calling a stale setter (path "p" deleted from the
state map) with a value different from the captured one DOES schedule a
render — `setState` has no liveness check and calls `enqueueRender`
unconditionally on a changed value. -/
theorem stale_setter_schedules_render :
    (SetterModel.setState 0 0 (.num 0) (.val (.num 1))
        (SetterModel.deletePath "p" c6store)).renderRequests = 1 :=
  rfl

/-- C7 as amended: after the owning path's entry is deleted from the state
map, a stale setter call never writes back into the state map — the
path-to-array map is untouched, the deleted entry is not resurrected, the
write lands only in the detached array object — but it is NOT a complete
no-op: when the next value differs from the captured one the setter still
requests a render (harmless, as the re-render finds no state at the
path); only an `Object.is`-equal next value is a true no-op. -/
theorem stale_setter_no_resurrection (s : SetterModel.Store) (p : String)
    (arr cursor : Nat) (captured newValue : Value) (next : SetterModel.NextArg)
    (hnew : SetterModel.nextValueOf next captured = newValue) :
    (SetterModel.setState arr cursor captured next (SetterModel.deletePath p s)).pathRef =
      adel s.pathRef p ∧
    aget (SetterModel.setState arr cursor captured next
      (SetterModel.deletePath p s)).pathRef p = none ∧
    (newValue ≠ captured →
      (SetterModel.setState arr cursor captured next
        (SetterModel.deletePath p s)).renderRequests = s.renderRequests + 1) ∧
    (newValue = captured →
      SetterModel.setState arr cursor captured next (SetterModel.deletePath p s) =
        SetterModel.deletePath p s) := by
  refine ⟨?_, ?_, ?_, ?_⟩
  · by_cases he : captured = newValue
    · simp [SetterModel.setState, hnew, ← he, SetterModel.deletePath]
    · simp [SetterModel.setState, hnew, he, SetterModel.deletePath]
  · by_cases he : captured = newValue
    · simp [SetterModel.setState, hnew, ← he, SetterModel.deletePath, aget_adel]
    · simp [SetterModel.setState, hnew, he, SetterModel.deletePath, aget_adel]
  · intro hne
    simp [SetterModel.setState, hnew, Ne.symm hne, SetterModel.deletePath]
  · intro he
    simp [SetterModel.setState, hnew, he]

/-- Witness for C7's amended theorem: the concrete stale-setter call does
not resurrect the deleted entry yet increments the render count. -/
theorem stale_setter_no_resurrection_witness :
    aget (SetterModel.setState 0 0 (.num 0) (.val (.num 1))
      (SetterModel.deletePath "p" c6store)).pathRef "p" = none ∧
    (SetterModel.setState 0 0 (.num 0) (.val (.num 1))
      (SetterModel.deletePath "p" c6store)).renderRequests = 1 :=
  ⟨(stale_setter_no_resurrection c6store "p" 0 0 (.num 0) (.num 1)
      (.val (.num 1)) rfl).2.1,
    (stale_setter_no_resurrection c6store "p" 0 0 (.num 0) (.num 1)
      (.val (.num 1)) rfl).2.2.1 (by decide)⟩

/-! ### C9 — the effect flush drains exactly its snapshot -/

/-- `aget` after `aset` at the written key. -/
theorem aget_aset_self {α β : Type} [DecidableEq α] (l : List (α × β)) (k : α) (v : β) :
    aget (aset l k v) k = some v := by
  induction l with
  | nil => simp [aset, aget]
  | cons e rest ih =>
    by_cases he : e.1 = k
    · simp [aset, he, aget]
    · simp [aset, he, aget, List.find?] at ih ⊢
      exact ih

/-- `aget` after `aset` at a different key. -/
theorem aget_aset_ne {α β : Type} [DecidableEq α] (l : List (α × β)) (k k2 : α) (v : β)
    (h : k2 ≠ k) : aget (aset l k v) k2 = aget l k2 := by
  induction l with
  | nil => simp [aset, aget, List.find?, Ne.symm h]
  | cons e rest ih =>
    by_cases he : e.1 = k
    · subst he
      simp [aset, aget, List.find?, Ne.symm h]
    · simp only [aset, if_neg he]
      by_cases he2 : e.1 = k2
      · simp [aget, List.find?, he2]
      · simp [aget, List.find?, he2] at ih ⊢
        exact ih

/-- `slotSet` within bounds keeps the slot count. -/
theorem slotSet_length_of_lt (l : List Slot) (i : Nat) (s : Slot) (h : i < l.length) :
    (slotSet l i s).length = l.length := by
  simp [slotSet, h]

/-- Reading back from `slotSet` within bounds. -/
theorem slotGet_slotSet_of_lt (l : List Slot) (i j : Nat) (s : Slot) (h : i < l.length) :
    slotGet (slotSet l i s) j = if j = i then s else slotGet l j := by
  simp only [slotSet, if_pos h, slotGet, List.get?_eq_getElem?]
  by_cases hji : j = i
  · subst hji
    simp [List.getElem?_set_eq_of_lt _ h]
  · simp [List.getElem?_set_ne (Ne.symm hji), hji]

/-- The eligibility test of `executeEffects` for one queue entry: the stored
effect-function id when the entry's path has state, the cursor is in
range, and the slot is an effect record (hooks.ts lines 201-217);
otherwise the entry is skipped. -/
def eligEffectId (state : List (String × List Slot)) (pc : String × Nat) : Option Nat :=
  match aget state pc.1 with
  | none => none
  | some hooks =>
    if pc.2 ≥ hooks.length then none
    else
      match slotGet hooks pc.2 with
      | .eff _ _ e => some e
      | _ => none

/-- The effect-function ids recorded as run, in order. -/
def effectRunsOf (log : List RunEv) : List Nat :=
  log.filterMap (fun ev => match ev with | .effectRun i => some i | _ => none)

/-- The concatenated queue entries pushed by a sequence of effect runs. -/
def pushesOf (env : EffEnv) : List Nat → List (String × Nat)
  | [] => []
  | e :: rest => (env e).pushes ++ pushesOf env rest

theorem effectRunsOf_append (a b : List RunEv) :
    effectRunsOf (a ++ b) = effectRunsOf a ++ effectRunsOf b := by
  simp [effectRunsOf]

/-- One queue entry's execution appends exactly its pushes (when eligible)
to the live queue. -/
theorem execOne_effQueue (env : EffEnv) (c : Ctx) (pc : String × Nat) :
    (execOne env c pc).effQueue = c.effQueue ++
      (match eligEffectId c.state pc with
       | some e => (env e).pushes
       | none => []) := by
  unfold execOne eligEffectId
  cases hg : aget c.state pc.1 with
  | none => simp
  | some hooks =>
    dsimp only
    by_cases hlen : pc.2 ≥ hooks.length
    · simp [hlen]
    · rw [if_neg hlen, if_neg hlen]
      cases hs : slotGet hooks pc.2 with
      | eff deps cl effId => cases cl <;> simp
      | undef => simp
      | val v => simp

/-- One queue entry's execution records exactly its effect id (when
eligible) in the run log. -/
theorem execOne_runLog (env : EffEnv) (c : Ctx) (pc : String × Nat) :
    effectRunsOf (execOne env c pc).runLog = effectRunsOf c.runLog ++
      (match eligEffectId c.state pc with
       | some e => [e]
       | none => []) := by
  unfold execOne eligEffectId
  cases hg : aget c.state pc.1 with
  | none => simp
  | some hooks =>
    dsimp only
    by_cases hlen : pc.2 ≥ hooks.length
    · simp [hlen]
    · rw [if_neg hlen, if_neg hlen]
      cases hs : slotGet hooks pc.2 with
      | eff deps cl effId =>
        cases cl <;> simp [effectRunsOf_append, effectRunsOf]
      | undef => simp
      | val v => simp

/-- Executing one entry never changes any entry's eligibility or stored
effect id (only the stored cleanup is replaced). -/
theorem execOne_elig (env : EffEnv) (c : Ctx) (pc pc2 : String × Nat) :
    eligEffectId (execOne env c pc).state pc2 = eligEffectId c.state pc2 := by
  unfold execOne
  cases hg : aget c.state pc.1 with
  | none => rfl
  | some hooks =>
    dsimp only
    by_cases hlen : pc.2 ≥ hooks.length
    · rw [if_pos hlen]
    · rw [if_neg hlen]
      have hlt : pc.2 < hooks.length := by omega
      cases hs : slotGet hooks pc.2 with
      | eff deps cl effId =>
        have key : ∀ newCl : Option Nat,
            eligEffectId (aset c.state pc.1 (slotSet hooks pc.2 (.eff deps newCl effId))) pc2 =
            eligEffectId c.state pc2 := by
          intro newCl
          unfold eligEffectId
          by_cases hp : pc2.1 = pc.1
          · rw [hp, aget_aset_self, hg]
            dsimp only
            rw [slotSet_length_of_lt _ _ _ hlt]
            by_cases hrange : pc2.2 ≥ hooks.length
            · simp [hrange]
            · simp only [hrange, if_false]
              rw [slotGet_slotSet_of_lt _ _ _ _ hlt]
              by_cases hcur : pc2.2 = pc.2
              · rw [if_pos hcur, hcur, hs]
              · rw [if_neg hcur]
          · rw [aget_aset_ne _ _ _ _ hp]
        cases cl with
        | none =>
          simpa using key (if (env effId).throws = true then none else (env effId).newCleanup)
        | some clId =>
          simpa using key (if (env effId).throws = true then none else (env effId).newCleanup)
      | undef => rfl
      | val v => rfl

/-- The accumulated effect of running a whole snapshot: the final queue is
the initial queue plus the pushes of the eligible entries in order, the
run log gains exactly the eligible entries' effect ids, and eligibility
is untouched. -/
theorem execFold_spec (env : EffEnv) (snap : List (String × Nat)) :
    ∀ c : Ctx,
      (snap.foldl (execOne env) c).effQueue =
        c.effQueue ++ pushesOf env (snap.filterMap (eligEffectId c.state)) ∧
      effectRunsOf (snap.foldl (execOne env) c).runLog =
        effectRunsOf c.runLog ++ snap.filterMap (eligEffectId c.state) ∧
      (∀ pc2, eligEffectId (snap.foldl (execOne env) c).state pc2 =
        eligEffectId c.state pc2) := by
  induction snap with
  | nil => intro c; simp [pushesOf]
  | cons pc rest ih =>
    intro c
    obtain ⟨ihq, ihr, ihe⟩ := ih (execOne env c pc)
    have hfeq : eligEffectId (execOne env c pc).state = eligEffectId c.state :=
      funext (execOne_elig env c pc)
    refine ⟨?_, ?_, ?_⟩
    · rw [List.foldl_cons, ihq, execOne_effQueue, hfeq, List.filterMap_cons]
      cases he : eligEffectId c.state pc <;> simp [pushesOf]
    · rw [List.foldl_cons, ihr, execOne_runLog, hfeq, List.filterMap_cons]
      cases he : eligEffectId c.state pc <;> simp
    · intro pc2
      rw [List.foldl_cons, ihe, hfeq]

/-- C9: one effect flush drains exactly the snapshot taken when it starts:
the effects that run are exactly the eligible members of the queue at
flush start (in order), and the queue left behind consists exactly of the
entries pushed by those effects while the flush ran — pushed entries are
never consumed by the running flush, only by a later one (to which this
theorem applies in turn). -/
theorem executeEffects_drains_snapshot (env : EffEnv) (c : Ctx) :
    (executeEffects env c).effQueue =
      pushesOf env (c.effQueue.filterMap (eligEffectId c.state)) ∧
    effectRunsOf (executeEffects env c).runLog =
      effectRunsOf c.runLog ++ c.effQueue.filterMap (eligEffectId c.state) := by
  unfold executeEffects
  by_cases hq : c.effQueue.isEmpty
  · have he : c.effQueue = [] := by
      cases hcq : c.effQueue with
      | nil => rfl
      | cons a l => rw [hcq] at hq; simp at hq
    simp [hq, he, pushesOf]
  · simp only [hq, if_false, Bool.false_eq_true]
    obtain ⟨q1, q2, _⟩ := execFold_spec env c.effQueue { c with effQueue := [] }
    constructor
    · rw [q1]
      try rfl
    · rw [q2]
      try rfl


/-! ### C8 — reconciling an unchanged tree -/

/-- A keyless `div` VNode with a single `id` prop (counterexample scenario
for C8). -/
def divId (s : String) : VNode := .mk (.host "div") none [("id", .str s)] [] ""

/-- Document for the counterexample: a root holding two `div` elements. -/
def c8dom : Dom :=
  { nextId := 3
    kids := [(0, [1, 2]), (1, []), (2, [])]
    text := []
    tags := [(0, "root"), (1, "div"), (2, "div")]
    log := [] }

def c8ctx : Ctx := { ctx0 with dom := c8dom }

/-- The mounted instance of the first keyless div (`id` "1", dom node 1). -/
def c8oldA : Instance := .mk .host (some 1) (divId "1") [] none "0.0"

/-- The mounted instance of the second keyless div (`id` "2", dom node 2). -/
def c8oldB : Instance := .mk .host (some 2) (divId "2") [] none "0.1"

/-- Reconciling the two keyless divs against the very same VNode list. -/
def c8upd : Except RErr (List (Option Instance)) × Ctx :=
  reconcileChildren envEmpty 10 0 0 [some c8oldA, some c8oldB] [divId "1", divId "2"] "0" c8ctx

/-- Counterexample to C8: reconciling an UNCHANGED VNode list is not always
mutation-free.  For two keyless same-type siblings, the back-to-front
matching loop pairs each new child with the positionally FIRST unused old
child of that type, cross-matching the two divs; the pass rewrites the
`id` attribute of both DOM nodes and then detaches and reinserts one of
them, six host mutations despite a VNode tree identical to the mounted
one. -/
theorem unchanged_keyless_children_emit_mutations :
    c8upd.2.dom.log =
      [.setAttr 1 "id" (.str "2"), .setProp 1 "id" (.str "2"),
       .setAttr 2 "id" (.str "1"), .setProp 2 "id" (.str "1"),
       .removeChild 0 2, .insertBefore 0 2 1] ∧
    c8upd.1 = .ok [some (.mk .host (some 2) (divId "1") [] none "0.1"),
      some (.mk .host (some 1) (divId "2") [] none "0.0")] := by
  exact ⟨rfl, rfl⟩

/-- `inst` faithfully mirrors its own VNode inside document `d` under parent
`container`: the structural invariants the reconciler itself establishes on
mount, restricted to host/text trees whose child lists are fully keyed with
pairwise-distinct keys (the regime in which C8's idempotence claim is
provable; the counterexample above shows keyless siblings break it). -/
inductive Mirrors (d : Dom) : Nat → Instance → Prop where
  | text (container i : Nat) (node : VNode) (path : String)
      (hty : node.ty = NType.text)
      (htext : aget d.text i = some node.nodeValue)
      (hparent : d.parentOf i = some container) :
      Mirrors d container (Instance.mk .text (some i) node [] node.key path)
  | host (container i : Nat) (node : VNode) (path : String)
      (cs : List Instance) (doms : List Nat) (tag : String)
      (hty : node.ty = NType.host tag)
      (htag : (aget d.tags i).isSome = true)
      (hparent : d.parentOf i = some container)
      (hnodes : cs.map Instance.node = node.children)
      (hkeys : ∀ x ∈ cs, ∃ kv, x.key = some kv ∧ x.node.key = some kv)
      (hknd : (cs.map Instance.key).Nodup)
      (hdoms : cs.map Instance.dom = doms.map some)
      (hkids : d.kidsOf i = doms)
      (hdnd : doms.Nodup)
      (hch : ∀ x ∈ cs, Mirrors d i x) :
      Mirrors d container (Instance.mk .host (some i) node (cs.map some) node.key path)

/-- Every mirrored instance is host- or text-kind, owns a dom node, and sits
under its container in the document. -/
theorem Mirrors.shape {d : Dom} {cont : Nat} {x : Instance} (h : Mirrors d cont x) :
    (x.kind = NKind.host ∨ x.kind = NKind.text) ∧
    ∃ dm, x.dom = some dm ∧ d.parentOf dm = some cont := by
  cases h with
  | text container i node path hty htext hparent =>
    exact ⟨Or.inr rfl, i, rfl, hparent⟩
  | host container i node path cs doms tag hty htag hparent hnodes hkeys hknd hdoms hkids
      hdnd hch =>
    exact ⟨Or.inl rfl, i, rfl, hparent⟩

/-- Diffing a prop map against itself writes nothing (dom.ts line 84: equal
values are skipped for every key). -/
theorem updateDomPropStep_self (i : Nat) (p : List (String × Value)) (d : Dom) (key : String) :
    updateDomPropStep i p p d key = d := by
  unfold updateDomPropStep
  by_cases hc : key = "children"
  · simp [hc]
  · simp [hc]

/-- `updateDomProps` with unchanged props is the identity on the document. -/
theorem updateDomProps_self (d : Dom) (i : Nat) (p : List (String × Value)) :
    updateDomProps d i p p = d := by
  unfold updateDomProps
  generalize allPropKeys p p = ks
  induction ks generalizing d with
  | nil => rfl
  | cons k ks ih => rw [List.foldl_cons, updateDomPropStep_self]; exact ih d

/-- `updateText` with unchanged text content mutates nothing and rebuilds the
same instance (reconciler.ts lines 183-186). -/
theorem updateText_noop (i : Nat) (node : VNode) (key : Option Value) (path : String) (c : Ctx)
    (htext : aget c.dom.text i = some node.nodeValue) :
    updateText (Instance.mk .text (some i) node [] key path) node c =
      (.ok (Instance.mk .text (some i) node [] key path), c) := by
  unfold updateText
  simp [Instance.dom, Instance.children, Instance.key, Instance.path, htext, Dom.textOf]

/-- `getFirstDom` of a host/text instance is its own dom node. -/
theorem getFirstDom_flat (g : Nat) (x : Instance)
    (hx : x.kind = NKind.host ∨ x.kind = NKind.text) :
    getFirstDom (g + 1) (some x) = x.dom := by
  rcases x with ⟨k, dm, node, cs, key, path⟩
  rcases hx with h | h <;> (simp only [Instance.kind] at h; subst h; rfl)

theorem listNextAfter_cons_ne (a x : Nat) (l : List Nat) (ha : ¬ a = x) (hl : l ≠ []) :
    listNextAfter (a :: l) x = listNextAfter l x := by
  cases l with
  | nil => exact absurd rfl hl
  | cons b rest => simp [listNextAfter, ha]

theorem listNextAfter_append (A : List Nat) (x : Nat) (B : List Nat) (hx : x ∉ A) :
    listNextAfter (A ++ x :: B) x = B.head? := by
  induction A with
  | nil =>
    cases B with
    | nil => rfl
    | cons b rest => simp [listNextAfter]
  | cons a A ih =>
    have hax : ¬ a = x := fun h => hx (by rw [← h]; exact List.mem_cons_self a A)
    rw [List.cons_append, listNextAfter_cons_ne a x _ hax (by simp)]
    exact ih (fun h => hx (List.mem_cons_of_mem a h))

/-- A fold whose step fixes every element of the list is the identity. -/
theorem foldl_id {α β : Type} (f : β → α → β) (l : List α) (d : β)
    (h : ∀ x ∈ l, ∀ b, f b x = b) : l.foldl f d = d := by
  induction l generalizing d with
  | nil => rfl
  | cons a l ih =>
    rw [List.foldl_cons, h a (List.mem_cons_self a l)]
    exact ih d (fun x hx b => h x (List.mem_cons_of_mem a hx) b)

/-- The unmount loop removes nothing when every old index was matched. -/
theorem removeUnused_noop (fuel container : Nat) (old : List (Option Instance))
    (used : List Nat) (d : Dom) (h : ∀ j, j < old.length → smem used j = true) :
    removeUnused fuel container old used d = d := by
  unfold removeUnused
  refine foldl_id _ _ _ (List.forall_mem_enum.mpr ?_)
  intro j hj b
  simp [h j hj]

/-- `smem` over a set built by appending, in terms of membership. -/
theorem smem_true_iff {α : Type} [DecidableEq α] (l : List α) (x : α) :
    smem l x = true ↔ x ∈ l := by
  simp [smem]

theorem smem_false_iff {α : Type} [DecidableEq α] (l : List α) (x : α) :
    smem l x = false ↔ ¬ x ∈ l := by
  rw [← Bool.not_eq_true, smem_true_iff]

/-- Size bookkeeping: a `some`-wrapped child list is strictly larger than the
number of children plus the sizes of the children. -/
theorem sizeOf_map_some (cs : List Instance) :
    sizeOf (cs.map some) = 1 + 2 * cs.length + (cs.map sizeOf).sum := by
  induction cs with
  | nil => simp
  | cons x cs ih => simp [ih]; omega

/-- The fold step of `buildKeyed`, named so the lookup lemmas can speak about
partial folds. -/
def bkStep (acc : List (Value × Instance) × List (Value × Nat)) (e : Nat × Option Instance) :
    List (Value × Instance) × List (Value × Nat) :=
  match e.2 with
  | some oc =>
    match oc.key with
    | some k => (aset acc.1 k oc, aset acc.2 k e.1)
    | none => acc
  | none => acc

theorem buildKeyed_eq_fold (old : List (Option Instance)) :
    buildKeyed old = old.enum.foldl bkStep ([], []) := rfl

/-- Entries whose key differs from `kv` never disturb the `kv` binding. -/
theorem bkFold_preserve (kv : Value) (l : List (Nat × Option Instance)) :
    ∀ (acc : List (Value × Instance) × List (Value × Nat)),
      (∀ e ∈ l, ∀ oc : Instance, e.2 = some oc → ¬ oc.key = some kv) →
      aget (l.foldl bkStep acc).1 kv = aget acc.1 kv ∧
      aget (l.foldl bkStep acc).2 kv = aget acc.2 kv := by
  induction l with
  | nil => intro acc _; exact ⟨rfl, rfl⟩
  | cons e rest ih =>
    intro acc h
    rw [List.foldl_cons]
    have hstep : aget (bkStep acc e).1 kv = aget acc.1 kv ∧
        aget (bkStep acc e).2 kv = aget acc.2 kv := by
      rcases e with ⟨n, o⟩
      cases o with
      | none => exact ⟨rfl, rfl⟩
      | some oc =>
        rcases hk : oc.key with _ | k
        · simp [bkStep, hk]
        · have hne : ¬ kv = k := by
            intro he
            exact h (n, some oc) (List.mem_cons_self _ _) oc rfl (by rw [hk, he])
          simp only [bkStep, hk]
          exact ⟨aget_aset_ne _ _ _ _ hne, aget_aset_ne _ _ _ _ hne⟩
    have hr := ih (bkStep acc e) (fun e2 he2 => h e2 (List.mem_cons_of_mem _ he2))
    exact ⟨hr.1.trans hstep.1, hr.2.trans hstep.2⟩

/-- Partial-fold form of the keyed-map lookup: with all children keyed and
keys pairwise distinct, the fold over the enumerated `some`-wrapped children
binds child `j`'s key to the child and to index `n + j`. -/
theorem bkFold_lookup (kv : Value) (cs : List Instance) :
    ∀ (n : Nat) (acc : List (Value × Instance) × List (Value × Nat)) (j : Nat) (cj : Instance),
      cs[j]? = some cj →
      (∀ x ∈ cs, ∃ v, x.key = some v) →
      (cs.map Instance.key).Nodup →
      cj.key = some kv →
      aget acc.1 kv = none → aget acc.2 kv = none →
      aget (((cs.map some).enumFrom n).foldl bkStep acc).1 kv = some cj ∧
      aget (((cs.map some).enumFrom n).foldl bkStep acc).2 kv = some (n + j) := by
  induction cs with
  | nil => intro n acc j cj h; simp at h
  | cons c0 rest ih =>
    intro n acc j cj hget hkeys hknd hkv hf1 hf2
    obtain ⟨k0, hk0⟩ := hkeys c0 (List.mem_cons_self c0 rest)
    rw [List.map_cons, List.enumFrom_cons, List.foldl_cons]
    rw [List.map_cons, List.nodup_cons] at hknd
    have hstep1 : (bkStep acc (n, some c0)).1 = aset acc.1 k0 c0 := by simp [bkStep, hk0]
    have hstep2 : (bkStep acc (n, some c0)).2 = aset acc.2 k0 n := by simp [bkStep, hk0]
    cases j with
    | zero =>
      have hc : c0 = cj := by simpa using hget
      subst hc
      have hkvk : k0 = kv := by
        rw [hkv] at hk0
        exact (Option.some.inj hk0).symm
      subst hkvk
      have hrest : ∀ e ∈ (rest.map some).enumFrom (n + 1), ∀ oc : Instance,
          e.2 = some oc → ¬ oc.key = some k0 := by
        intro e he oc he2 hoc
        have h2 := List.mem_map_of_mem Prod.snd he
        rw [List.enumFrom_map_snd] at h2
        rw [he2] at h2
        obtain ⟨x, hx, hxe⟩ := List.mem_map.mp h2
        have hxoc : x = oc := Option.some.inj hxe
        subst hxoc
        exact hknd.1 (by rw [hk0, ← hoc]; exact List.mem_map_of_mem Instance.key hx)
      have hp := bkFold_preserve k0 ((rest.map some).enumFrom (n + 1))
        (bkStep acc (n, some c0)) hrest
      refine ⟨?_, ?_⟩
      · rw [hp.1, hstep1, aget_aset_self]
      · rw [hp.2, hstep2, aget_aset_self]
        simp
    | succ j2 =>
      have hget2 : rest[j2]? = some cj := by simpa using hget
      have hcjmem : cj ∈ rest := by
        have := List.getElem?_eq_some_iff.mp hget2
        obtain ⟨hlt, heq⟩ := this
        exact heq ▸ List.getElem_mem hlt
      have hne : ¬ kv = k0 := by
        intro he
        refine hknd.1 ?_
        rw [hk0, ← he, ← hkv]
        exact List.mem_map_of_mem Instance.key hcjmem
      have hr := ih (n + 1) (bkStep acc (n, some c0)) j2 cj hget2
        (fun x hx => hkeys x (List.mem_cons_of_mem c0 hx)) hknd.2 hkv
        (by rw [hstep1, aget_aset_ne _ _ _ _ hne, hf1])
        (by rw [hstep2, aget_aset_ne _ _ _ _ hne, hf2])
      refine ⟨hr.1, ?_⟩
      rw [hr.2]
      have : n + 1 + j2 = n + (j2 + 1) := by omega
      rw [this]

/-- The keyed lookup maps of `reconcileChildren`, for a fully keyed child
list with pairwise-distinct keys: child `j`'s key maps to child `j` and to
index `j`. -/
theorem buildKeyed_lookup (cs : List Instance) (j : Nat) (cj : Instance) (kv : Value)
    (hget : cs[j]? = some cj)
    (hkeys : ∀ x ∈ cs, ∃ v, x.key = some v) (hknd : (cs.map Instance.key).Nodup)
    (hkv : cj.key = some kv) :
    aget (buildKeyed (cs.map some)).1 kv = some cj ∧
    aget (buildKeyed (cs.map some)).2 kv = some j := by
  have hb := bkFold_lookup kv cs 0 ([], []) j cj hget hkeys hknd hkv rfl rfl
  rw [buildKeyed_eq_fold, List.enum_eq_enumFrom]
  simpa using hb

/-- The placement loop moves nothing when the document's child list already
lists the children's dom nodes in order: scanning the children back to
front, each node is under the right parent with the maintained anchor as its
next sibling. -/
theorem moveLoop_noop (g container : Nat) (d : Dom) :
    ∀ (ys : List Instance) (rs ds2 : List Nat),
      ys.map Instance.dom = rs.map some →
      (∀ x ∈ ys, x.kind = NKind.host ∨ x.kind = NKind.text) →
      (∀ n ∈ rs, d.parentOf n = some container) →
      d.kidsOf container = rs.reverse ++ ds2 →
      (rs.reverse ++ ds2).Nodup →
      moveLoop (g + 1) container (ys.map some) ds2.head? d = d := by
  intro ys
  induction ys with
  | nil => intro rs ds2 _ _ _ _ _; rfl
  | cons y ys ih =>
    intro rs ds2 hmap hknd hpar hkids hnd
    cases rs with
    | nil => simp at hmap
    | cons r rs =>
      simp only [List.map_cons, List.cons.injEq] at hmap
      obtain ⟨hy, hmap2⟩ := hmap
      have hgf : getFirstDom (g + 1) (some y) = some r := by
        rw [getFirstDom_flat g y (hknd y (List.mem_cons_self y ys)), hy]
      have hpr : d.parentOf r = some container := hpar r (List.mem_cons_self r rs)
      have hkids2 : d.kidsOf container = rs.reverse ++ (r :: ds2) := by
        rw [hkids]
        simp
      have hnd2 : (rs.reverse ++ (r :: ds2)).Nodup := by
        rw [← hkids2, hkids]
        exact hnd
      have hrnotin : r ∉ rs.reverse := by
        have hnd3 := hnd2
        rw [List.nodup_append] at hnd3
        exact fun hmem => hnd3.2.2 hmem (List.mem_cons_self r ds2)
      have hns : d.nextSibling r = ds2.head? := by
        unfold Dom.nextSibling
        rw [hpr]
        show listNextAfter (d.kidsOf container) r = ds2.head?
        rw [hkids2]
        exact listNextAfter_append _ _ _ hrnotin
      have hrec := ih rs (r :: ds2) hmap2
        (fun x hx => hknd x (List.mem_cons_of_mem y hx))
        (fun n hn => hpar n (List.mem_cons_of_mem r hn)) hkids2 hnd2
      cases hd2 : ds2.head? with
      | none =>
        simp only [List.map_cons, moveLoop, hgf, hpr, hd2]
        simpa using hrec
      | some a =>
        rw [hd2] at hns
        simp only [List.map_cons, moveLoop, hgf, hpr, hd2, hns]
        simpa using hrec

/-- The matching loop of `reconcileChildren` on a fully keyed, pairwise
distinct child list whose new VNodes are exactly the old children's own
nodes: processing the reversed enumeration of the first `m` new children
reconciles each with its keyed match (leaving the context untouched),
returns the old instances in index order, and marks indices `0..m-1`
used. -/
theorem rcLoop_prefix (env : CompEnv) (container : Nat) (cs : List Instance)
    (keyed : List (Value × Instance)) (keyedIdx : List (Value × Nat)) (pp : String) (c : Ctx)
    (hlk : ∀ j cj, cs[j]? = some cj → ∃ kv,
      cj.node.key = some kv ∧ aget keyed kv = some cj ∧ aget keyedIdx kv = some j)
    (hrec : ∀ x ∈ cs, ∀ f2 p2, sizeOf x ≤ f2 →
      reconcile env f2 container (some x) (some x.node) p2 c = (.ok (some x), c)) :
    ∀ (m : Nat), m ≤ cs.length → ∀ (fuel : Nat) (used : List Nat),
      (∀ j, j < m → smem used j = false) →
      m + ((cs.map sizeOf).sum + 1) ≤ fuel →
      rcLoop env fuel container (cs.map some) keyed keyedIdx pp
        (((cs.map Instance.node).enum.take m).reverse) used c =
      (.ok ((cs.take m).map some, used ++ (List.range m).reverse), c) := by
  intro m
  induction m with
  | zero =>
    intro _ fuel used _ hfuel
    obtain ⟨g, rfl⟩ : ∃ g, fuel = g + 1 := ⟨fuel - 1, by omega⟩
    simp [rcLoop]
  | succ mm ih =>
    intro hm fuel used hfresh hfuel
    obtain ⟨g, rfl⟩ : ∃ g, fuel = g + 1 := ⟨fuel - 1, by omega⟩
    have hmm : mm < cs.length := hm
    obtain ⟨cj, hcj⟩ : ∃ cj, cs[mm]? = some cj := ⟨_, List.getElem?_eq_getElem hmm⟩
    have henl : (cs.map Instance.node).enum[mm]? = some (mm, cj.node) := by
      rw [List.enum_eq_enumFrom, List.getElem?_enumFrom, List.getElem?_map, hcj]
      simp
    have hjs : ((cs.map Instance.node).enum.take (mm + 1)).reverse =
        (mm, cj.node) :: ((cs.map Instance.node).enum.take mm).reverse := by
      rw [List.take_succ, henl]
      simp
    rw [hjs]
    obtain ⟨kv, hndk, hk1, hk2⟩ := hlk mm cj hcj
    have hmem : cj ∈ cs := List.getElem?_mem hcj
    have hsz : sizeOf cj ≤ g := by
      have hle : sizeOf cj ≤ (cs.map sizeOf).sum :=
        List.le_sum_of_mem (List.mem_map_of_mem sizeOf hmem)
      omega
    have hrc := hrec cj hmem g (createChildPath pp (some kv) mm) hsz
    have hsadd : sadd used mm = used ++ [mm] := by
      simp [sadd, hfresh mm (Nat.lt_succ_self mm)]
    have hfresh2 : ∀ j, j < mm → smem (used ++ [mm]) j = false := by
      intro j hj
      rw [smem_false_iff]
      intro hmemj
      rcases List.mem_append.mp hmemj with h1 | h1
      · exact absurd h1 ((smem_false_iff _ _).mp (hfresh j (Nat.lt_succ_of_lt hj)))
      · simp at h1
        omega
    have hih := ih (Nat.le_of_lt hmm) g (used ++ [mm]) hfresh2 (by omega)
    simp only [rcLoop, hndk, hk1, hk2, recm_bind_apply, recm_pure_apply, eq_self_iff_true,
      if_true, hrc, hsadd, hih]
    rw [List.take_succ, hcj, List.range_succ]
    simp

/-- Record update with an unchanged `dom` field is the identity. -/
theorem ctx_eta (c : Ctx) : { c with dom := c.dom } = c := rfl

/-- Reconciling a mirrored instance against its own (thus unchanged) VNode
is the identity on the context and returns the very same instance: the
inductive core behind the unchanged-tree and keyed-reorder theorems. -/
theorem mirrors_reconcile_noop (env : CompEnv) (c : Ctx) {container : Nat}
    {inst : Instance} (hm : Mirrors c.dom container inst) :
    ∀ (fuel : Nat) (path : String), sizeOf inst ≤ fuel →
      reconcile env fuel container (some inst) (some inst.node) path c =
        (.ok (some inst), c) := by
  induction hm with
  | text container i node path0 hty htext hparent =>
    intro fuel path hf
    have hpos : 0 < sizeOf (Instance.mk NKind.text (some i) node [] node.key path0) := by
      simp
    obtain ⟨f, rfl⟩ : ∃ f, fuel = f + 1 := ⟨fuel - 1, by omega⟩
    have hut := updateText_noop i node node.key path0 c htext
    simp only [reconcile, Instance.node, Instance.key, Instance.kind, ne_eq,
      eq_self_iff_true, not_true, decide_False, Bool.or_self, Bool.false_eq_true, if_false,
      recm_bind_apply, hut, recm_pure_apply]
  | host container i node path0 cs doms tag hty htag hparent hnodes hkeys hknd hdoms hkids
      hdnd hch ih =>
    intro fuel path hf
    have hszm := sizeOf_map_some cs
    have hnode : 0 < sizeOf node := by
      rcases node with ⟨t, k, p, ch, v⟩
      simp
    have hkeysz : 0 < sizeOf node.key := by
      rcases node.key with _ | k <;> simp
    simp only [Instance.mk.sizeOf_spec, hszm] at hf
    have hfuel4 : cs.length + ((cs.map sizeOf).sum + 1) + 4 ≤ fuel := by
      simp at hf
      omega
    obtain ⟨f3, rfl⟩ : ∃ f3, fuel = f3 + 1 + 1 + 1 := ⟨fuel - 3, by omega⟩
    have hnn : (aget c.dom.tags i).isNone = false := by
      rcases h : aget c.dom.tags i with _ | t
      · rw [h] at htag
        simp at htag
      · rfl
    have hud : updateDomProps c.dom i node.props node.props = c.dom :=
      updateDomProps_self c.dom i node.props
    have htk : (cs.map Instance.node).enum.take cs.length = (cs.map Instance.node).enum := by
      apply List.take_of_length_le
      simp
    have hlk2 : ∀ j cj, cs[j]? = some cj → ∃ kv,
        cj.node.key = some kv ∧ aget (buildKeyed (cs.map some)).1 kv = some cj ∧
        aget (buildKeyed (cs.map some)).2 kv = some j := by
      intro j cj hget
      obtain ⟨kv, hkey1, hkey2⟩ := hkeys cj (List.getElem?_mem hget)
      have hb := buildKeyed_lookup cs j cj kv hget
        (fun x hx => ⟨(hkeys x hx).choose, (hkeys x hx).choose_spec.1⟩) hknd hkey1
      exact ⟨kv, hkey2, hb.1, hb.2⟩
    have hloop := rcLoop_prefix env i cs (buildKeyed (cs.map some)).1
      (buildKeyed (cs.map some)).2 path0 c hlk2
      (fun x hx f2 p2 hle => ih x hx f2 p2 hle)
      cs.length (Nat.le_refl _) f3 [] (fun j hj => rfl) (by omega)
    rw [htk] at hloop
    simp only [List.nil_append, List.take_length] at hloop
    have hmv : moveLoop (f3 + 1) i ((cs.map some).reverse) none c.dom = c.dom := by
      have h1 : (cs.reverse).map Instance.dom = (doms.reverse).map some := by
        rw [List.map_reverse, List.map_reverse, hdoms]
      have h2 : ∀ x ∈ cs.reverse, x.kind = NKind.host ∨ x.kind = NKind.text := by
        intro x hx
        exact (Mirrors.shape (hch x (List.mem_reverse.mp hx))).1
      have h3 : ∀ n ∈ doms.reverse, c.dom.parentOf n = some i := by
        intro n hn
        rw [List.mem_reverse] at hn
        have hsn : some n ∈ cs.map Instance.dom := by
          rw [hdoms]
          exact List.mem_map_of_mem some hn
        obtain ⟨x, hx, hxd⟩ := List.mem_map.mp hsn
        obtain ⟨_, dm, hdm, hpar2⟩ := Mirrors.shape (hch x hx)
        rw [hxd] at hdm
        rw [← Option.some.inj hdm] at hpar2
        exact hpar2
      have h4 : c.dom.kidsOf i = (doms.reverse).reverse ++ [] := by
        simpa using hkids
      have h5 : ((doms.reverse).reverse ++ []).Nodup := by
        simpa using hdnd
      have hmv0 := moveLoop_noop f3 i c.dom cs.reverse doms.reverse [] h1 h2 h3 h4 h5
      rw [List.map_reverse] at hmv0
      simpa using hmv0
    have hru : removeUnused (f3 + 1) i (cs.map some) ((List.range cs.length).reverse) c.dom
        = c.dom := by
      apply removeUnused_noop
      intro j hj
      rw [smem_true_iff]
      simp only [List.length_map] at hj
      simp [hj]
    simp only [reconcile, updateHost, reconcileChildren, Instance.node, Instance.key,
      Instance.kind, Instance.dom, Instance.children, Instance.path, ne_eq,
      eq_self_iff_true, not_true, decide_False, Bool.or_self, Bool.false_eq_true, if_false,
      recm_bind_apply, recm_pure_apply, getCtx_apply,
      hnn, modDom, modCtx_apply, hud, ctx_eta, ← hnodes, hloop, hmv, hru]

/-- C8 as amended: over host/text subtrees whose child lists are fully keyed
with pairwise-distinct keys, reconciling an instance against its own (thus
unchanged) VNode is a complete no-op: the context — document tree, text
contents, mutation log, hook store — is returned untouched and the very
same instance tree is produced.  `Mirrors` captures the invariants the
mount pass establishes; the keyless counterexample above is excluded by
its key conditions. -/
theorem unchanged_subtree_reconcile_noop (env : CompEnv) (c : Ctx) {container : Nat}
    {inst : Instance} (hm : Mirrors c.dom container inst) :
    ∀ (fuel : Nat) (path : String), sizeOf inst ≤ fuel →
      reconcile env fuel container (some inst) (some inst.node) path c =
        (.ok (some inst), c) :=
  mirrors_reconcile_noop env c hm

/-- Keyed span child VNode of the C8 witness tree. -/
def spanNodeW : VNode := .mk (.host "span") (some (.str "a")) [("id", .str "s")] [] ""

/-- Keyed text child VNode of the C8 witness tree. -/
def textNodeW : VNode := .mk .text (some (.str "b")) [] [] "hi"

/-- Root VNode of the C8 witness tree: a keyed div with two keyed children. -/
def c8wnode : VNode := .mk (.host "div") (some (.str "k")) [("className", .str "c")]
  [spanNodeW, textNodeW] ""

def c8wspan : Instance := .mk .host (some 2) spanNodeW [] (some (.str "a")) "0.a"

def c8wtext : Instance := .mk .text (some 3) textNodeW [] (some (.str "b")) "0.b"

def c8winst : Instance := .mk .host (some 1) c8wnode [some c8wspan, some c8wtext]
  (some (.str "k")) "0"

/-- Document matching `c8winst`: div 1 under root 0, span 2 and text 3 under
the div. -/
def c8wdom : Dom :=
  { nextId := 4
    kids := [(0, [1]), (1, [2, 3]), (2, [])]
    text := [(3, "hi")]
    tags := [(0, "root"), (1, "div"), (2, "span")]
    log := [] }

def c8wctx : Ctx := { ctx0 with dom := c8wdom }

/-- The `Mirrors` invariant holds of the concrete witness tree. -/
theorem c8w_mirrors : Mirrors c8wctx.dom 0 c8winst := by
  have hspan : Mirrors c8wctx.dom 1 c8wspan :=
    Mirrors.host 1 2 spanNodeW "0.a" [] [] "span" rfl rfl rfl rfl
      (fun x hx => absurd hx (List.not_mem_nil x)) List.nodup_nil rfl rfl List.nodup_nil
      (fun x hx => absurd hx (List.not_mem_nil x))
  have htxt : Mirrors c8wctx.dom 1 c8wtext := Mirrors.text 1 3 textNodeW "0.b" rfl rfl rfl
  exact Mirrors.host 0 1 c8wnode "0" [c8wspan, c8wtext] [2, 3] "div"
    rfl rfl rfl rfl
    (by
      intro x hx
      rcases List.mem_cons.mp hx with h1 | h1
      · exact ⟨Value.str "a", by rw [h1]; rfl, by rw [h1]; rfl⟩
      · rcases List.mem_cons.mp h1 with h2 | h2
        · exact ⟨Value.str "b", by rw [h2]; rfl, by rw [h2]; rfl⟩
        · exact absurd h2 (List.not_mem_nil x))
    (by decide) rfl rfl (by decide)
    (by
      intro x hx
      rcases List.mem_cons.mp hx with h1 | h1
      · rw [h1]; exact hspan
      · rcases List.mem_cons.mp h1 with h2 | h2
        · rw [h2]; exact htxt
        · exact absurd h2 (List.not_mem_nil x))

/-- Witness for C8's amended theorem: the concrete keyed div{span,text} tree,
reconciled against its own unchanged VNode, yields the identical instance
and leaves the context untouched. -/
theorem unchanged_subtree_reconcile_noop_witness :
    Mirrors c8wctx.dom 0 c8winst ∧
    reconcile envEmpty (sizeOf c8winst) 0 (some c8winst) (some c8winst.node) "0" c8wctx =
      (.ok (some c8winst), c8wctx) :=
  ⟨c8w_mirrors,
    unchanged_subtree_reconcile_noop envEmpty c8wctx c8w_mirrors (sizeOf c8winst) "0"
      (Nat.le_refl _)⟩


/-! ### C2 — keyed reorder, universally -/

/-- A mirrored instance carries its own node's key. -/
theorem Mirrors.key_eq {d : Dom} {cont : Nat} {x : Instance} (h : Mirrors d cont x) :
    x.key = x.node.key := by
  cases h <;> rfl

/-- `getDomNodes` of a host/text instance is its own single dom node. -/
theorem getDomNodes_flat (g : Nat) (x : Instance) (n : Nat)
    (hx : x.kind = NKind.host ∨ x.kind = NKind.text) (hd : x.dom = some n) :
    getDomNodes (g + 1) (some x) = [n] := by
  rcases x with ⟨k, dm, node, cs, key, path⟩
  simp only [Instance.dom] at hd
  subst hd
  rcases hx with h | h <;> (simp only [Instance.kind] at h; subst h; rfl)

/-- `aget` on a cons cell. -/
theorem aget_cons {α β : Type} [DecidableEq α] (k1 : α) (v : β) (rest : List (α × β)) (k : α) :
    aget ((k1, v) :: rest) k = if k1 = k then some v else aget rest k := by
  by_cases h : k1 = k <;> simp [aget, List.find?, h]

/-- The tie-break of reconciler.ts lines 283-303, universally: whenever a new
child's key hits the keyed old-children map, the matching loop reconciles
against THAT old instance and marks ITS index used — the positional
`(type, key)` scan (lines 304-315) is never consulted, whatever unused
same-type candidates it would have found at whatever positions. -/
theorem rcLoop_key_hit (env : CompEnv) (fuel2 container2 : Nat) (oldC : List (Option Instance))
    (keyed2 : List (Value × Instance)) (keyedIdx2 : List (Value × Nat)) (pp2 : String)
    (i2 : Nat) (nc : VNode) (rest : List (Nat × VNode)) (used2 : List Nat)
    (k : Value) (oi : Instance) (oidx : Nat)
    (hk : nc.key = some k) (h1 : aget keyed2 k = some oi) (h2 : aget keyedIdx2 k = some oidx)
    (hty : oi.node.ty = nc.ty) :
    rcLoop env (fuel2 + 1) container2 oldC keyed2 keyedIdx2 pp2 ((i2, nc) :: rest) used2 =
      (do
        let ni ← reconcile env fuel2 container2 (some oi) (some nc)
          (createChildPath pp2 nc.key i2)
        let r ← rcLoop env fuel2 container2 oldC keyed2 keyedIdx2 pp2 rest (sadd used2 oidx)
        pure (r.1 ++ [ni], r.2)) := by
  funext c2
  simp only [rcLoop, hk, h1, h2, hty, eq_self_iff_true, if_true, recm_bind_apply,
    recm_pure_apply]
  rcases hres : reconcile env fuel2 container2 (some oi) (some nc)
    (createChildPath pp2 (some k) i2) c2 with ⟨res, cr⟩
  cases res <;> simp

/-- C2: keyed reorder reuses every instance and only moves host nodes —
universally.  Conjunct 1: for EVERY document, hook store, container and
child triple A(key=1), B(key=2), C(key=3) of mirrored keyed host/text
subtrees (arbitrary tags, props, text and nested keyed children) sitting
in order under the container, reconciling the permuted list [C, A, B]
against them returns the VERY SAME three instances (same dom nodes, same
paths, so the hook state addressed by those paths is reused) in the
permuted order, leaves the whole context — including the hook store,
quantified arbitrary — untouched except for the document, performs no
allocation, and the document change is exactly the reorder: detach C's
host node and reinsert it before A's.  Conjunct 2 is the unconditional
tie-break: a key match always wins over the positional/type scan. -/
theorem keyed_reorder_reuses_instances_universally (env : CompEnv) (c : Ctx)
    (parentDom container : Nat) (a b c3 : Instance) (da db dc : Nat) (fuel : Nat) (pp : String)
    (hma : Mirrors c.dom container a) (hmb : Mirrors c.dom container b)
    (hmc : Mirrors c.dom container c3)
    (hka : a.key = some (.num 1)) (hkb : b.key = some (.num 2)) (hkc : c3.key = some (.num 3))
    (hda : a.dom = some da) (hdb : b.dom = some db) (hdc : c3.dom = some dc)
    (hkids : c.dom.kidsOf container = [da, db, dc])
    (hnd : ([da, db, dc] : List Nat).Nodup)
    (hf : sizeOf a + sizeOf b + sizeOf c3 + 4 ≤ fuel) :
    (reconcileChildren env fuel parentDom container [some a, some b, some c3]
        [c3.node, a.node, b.node] pp c =
      (.ok [some c3, some a, some b],
        { c with dom := (c.dom.removeChildOp container dc).insertBeforeOp container dc da }) ∧
      ((c.dom.removeChildOp container dc).insertBeforeOp container dc da).log =
        c.dom.log ++ [.removeChild container dc, .insertBefore container dc da]) ∧
    (∀ (fuel2 container2 : Nat) (oldC : List (Option Instance))
        (keyed2 : List (Value × Instance)) (keyedIdx2 : List (Value × Nat)) (pp2 : String)
        (i2 : Nat) (nc : VNode) (rest : List (Nat × VNode)) (used2 : List Nat)
        (k : Value) (oi : Instance) (oidx : Nat),
      nc.key = some k → aget keyed2 k = some oi → aget keyedIdx2 k = some oidx →
      oi.node.ty = nc.ty →
      rcLoop env (fuel2 + 1) container2 oldC keyed2 keyedIdx2 pp2 ((i2, nc) :: rest) used2 =
        (do
          let ni ← reconcile env fuel2 container2 (some oi) (some nc)
            (createChildPath pp2 nc.key i2)
          let r ← rcLoop env fuel2 container2 oldC keyed2 keyedIdx2 pp2 rest (sadd used2 oidx)
          pure (r.1 ++ [ni], r.2))) := by
  constructor
  case right =>
    intro fuel2 container2 oldC keyed2 keyedIdx2 pp2 i2 nc rest used2 k oi oidx hk h1 h2 hty
    exact rcLoop_key_hit env fuel2 container2 oldC keyed2 keyedIdx2 pp2 i2 nc rest used2 k oi
      oidx hk h1 h2 hty
  case left =>
    -- pin each child's dom node, parent link and kind
    obtain ⟨hkina, da2, hda2, hpa⟩ := Mirrors.shape hma
    rw [hda] at hda2
    rw [← Option.some.inj hda2] at hpa
    obtain ⟨hkinb, db2, hdb2, hpb⟩ := Mirrors.shape hmb
    rw [hdb] at hdb2
    rw [← Option.some.inj hdb2] at hpb
    obtain ⟨hkinc, dc2, hdc2, hpc⟩ := Mirrors.shape hmc
    rw [hdc] at hdc2
    rw [← Option.some.inj hdc2] at hpc
    -- node keys
    have hnka : a.node.key = some (Value.num 1) := by rw [← Mirrors.key_eq hma]; exact hka
    have hnkb : b.node.key = some (Value.num 2) := by rw [← Mirrors.key_eq hmb]; exact hkb
    have hnkc : c3.node.key = some (Value.num 3) := by rw [← Mirrors.key_eq hmc]; exact hkc
    -- distinct dom ids
    simp only [List.nodup_cons, List.mem_cons, List.mem_singleton, List.not_mem_nil,
      or_false, not_or, List.nodup_nil, and_true] at hnd
    obtain ⟨⟨hdab, hdac⟩, hdbc⟩ := hnd
    -- positivity for the fuel shape
    have hpa1 : 0 < sizeOf a := by rcases a with ⟨k, d, n, cs, key, p⟩; simp
    obtain ⟨g, rfl⟩ : ∃ g, fuel = g + 1 + 1 + 1 + 1 + 1 := ⟨fuel - 5, by omega⟩
    -- the keyed maps
    have hbk : buildKeyed [some a, some b, some c3] =
        ([(Value.num 1, a), (Value.num 2, b), (Value.num 3, c3)],
         [(Value.num 1, 0), (Value.num 2, 1), (Value.num 3, 2)]) := by
      simp [buildKeyed, List.enum_eq_enumFrom, bkStep, hka, hkb, hkc, aset,
        (by decide : ¬ (Value.num 1 = Value.num 2)), (by decide : ¬ (Value.num 1 = Value.num 3)),
        (by decide : ¬ (Value.num 2 = Value.num 3))]
    have hg1 : aget [(Value.num 1, a), (Value.num 2, b), (Value.num 3, c3)] (Value.num 1) =
        some a := by
      rw [aget_cons, if_pos rfl]
    have hg2 : aget [(Value.num 1, a), (Value.num 2, b), (Value.num 3, c3)] (Value.num 2) =
        some b := by
      rw [aget_cons, if_neg (by decide), aget_cons, if_pos rfl]
    have hg3 : aget [(Value.num 1, a), (Value.num 2, b), (Value.num 3, c3)] (Value.num 3) =
        some c3 := by
      rw [aget_cons, if_neg (by decide), aget_cons, if_neg (by decide), aget_cons, if_pos rfl]
    have hi1 : aget [(Value.num 1, 0), (Value.num 2, 1), (Value.num 3, 2)] (Value.num 1) =
        some 0 := by
      rw [aget_cons, if_pos rfl]
    have hi2 : aget [(Value.num 1, 0), (Value.num 2, 1), (Value.num 3, 2)] (Value.num 2) =
        some 1 := by
      rw [aget_cons, if_neg (by decide), aget_cons, if_pos rfl]
    have hi3 : aget [(Value.num 1, 0), (Value.num 2, 1), (Value.num 3, 2)] (Value.num 3) =
        some 2 := by
      rw [aget_cons, if_neg (by decide), aget_cons, if_neg (by decide), aget_cons, if_pos rfl]
    -- the three in-place reconciles, each leaving the context untouched
    have hrb := mirrors_reconcile_noop env c hmb (g + 1 + 1 + 1)
      (createChildPath pp (some (Value.num 2)) 2) (by omega)
    have hra := mirrors_reconcile_noop env c hma (g + 1 + 1)
      (createChildPath pp (some (Value.num 1)) 1) (by omega)
    have hrc := mirrors_reconcile_noop env c hmc (g + 1)
      (createChildPath pp (some (Value.num 3)) 0) (by omega)
    -- the used set
    have hs1 : sadd ([] : List Nat) 1 = [1] := rfl
    have hs2 : sadd [1] 0 = [1, 0] := rfl
    have hs3 : sadd [1, 0] 2 = [1, 0, 2] := rfl
    -- next-sibling facts on the untouched document
    have hnsa : c.dom.nextSibling da = some db := by
      unfold Dom.nextSibling
      rw [hpa]
      show listNextAfter (c.dom.kidsOf container) da = some db
      rw [hkids]
      simp [listNextAfter]
    have hnsc : c.dom.nextSibling dc = none := by
      unfold Dom.nextSibling
      rw [hpc]
      show listNextAfter (c.dom.kidsOf container) dc = none
      rw [hkids]
      simp [listNextAfter, hdac, hdbc]
    -- the single move: C's host node is detached and reinserted before A's
    have hrm : removeInstance (g + 1 + 1 + 1 + 1 + 1) c.dom container (some c3) =
        c.dom.removeChildOp container dc := by
      simp [removeInstance, getDomNodes_flat _ c3 dc hkinc hdc, hpc]
    have hins : insertInstance (g + 1 + 1 + 1 + 1 + 1) (c.dom.removeChildOp container dc)
        container (some c3) (some da) =
        (c.dom.removeChildOp container dc).insertBeforeOp container dc da := by
      simp [insertInstance, getDomNodes_flat _ c3 dc hkinc hdc]
    have hgb := getFirstDom_flat (g + 1 + 1 + 1 + 1) b hkinb
    have hga := getFirstDom_flat (g + 1 + 1 + 1 + 1) a hkina
    have hgc := getFirstDom_flat (g + 1 + 1 + 1 + 1) c3 hkinc
    rw [hdb] at hgb
    rw [hda] at hga
    rw [hdc] at hgc
    have hmove : moveLoop (g + 1 + 1 + 1 + 1 + 1) container [some b, some a, some c3] none
        c.dom = (c.dom.removeChildOp container dc).insertBeforeOp container dc da := by
      simp only [moveLoop, hgb, hga, hgc, hpa, hpb, hpc, hnsa, hnsc, hrm, hins,
        eq_self_iff_true, decide_True, Bool.not_true, Bool.false_or, Bool.or_false,
        if_false, if_true, reduceCtorEq, decide_False, Bool.not_false]
    have hrun : removeUnused (g + 1 + 1 + 1 + 1 + 1) container [some a, some b, some c3]
        [1, 0, 2] ((c.dom.removeChildOp container dc).insertBeforeOp container dc da) =
        (c.dom.removeChildOp container dc).insertBeforeOp container dc da :=
      removeUnused_noop _ _ _ _ _ (by
        intro j hj
        simp only [List.length_cons, List.length_nil] at hj
        interval_cases j <;> rfl)
    refine ⟨?_, ?_⟩
    · simp only [reconcileChildren, hbk, rcLoop, List.enum_eq_enumFrom, List.enumFrom_cons,
        List.enumFrom_nil, List.reverse_cons, List.reverse_nil, List.nil_append,
        List.cons_append, hnka, hnkb, hnkc, hg1, hg2, hg3, hi1, hi2, hi3,
        eq_self_iff_true, if_true, recm_bind_apply, recm_pure_apply, modDom, modCtx_apply,
        hrb, hra, hrc, hs1, hs2, hs3, hmove, hrun]
    · simp [Dom.removeChildOp, Dom.insertBeforeOp, Dom.detach]

/-- Witness for C2's universal theorem at the spec's own li scenario: the
mounted [A(1), B(2), C(3)] children (host nodes 3, 2, 1 under container 0)
reconciled against the permuted [C(3), A(1), B(2)]. -/
theorem keyed_reorder_reuses_instances_universally_witness :
    reconcileChildren envEmpty (sizeOf liInst1 + sizeOf liInst2 + sizeOf liInst3 + 4) 0 0
        [some liInst1, some liInst2, some liInst3] [liV 3, liV 1, liV 2] "0"
        { ctx0 with dom := c2dom } =
      (.ok [some liInst3, some liInst1, some liInst2],
        { { ctx0 with dom := c2dom } with
          dom := (c2dom.removeChildOp 0 1).insertBeforeOp 0 1 3 }) ∧
    ((c2dom.removeChildOp 0 1).insertBeforeOp 0 1 3).log =
      c2dom.log ++ [.removeChild 0 1, .insertBefore 0 1 3] := by
  have hma : Mirrors ({ ctx0 with dom := c2dom } : Ctx).dom 0 liInst1 :=
    Mirrors.host 0 3 (liV 1) "0.1" [] [] "li" rfl rfl rfl rfl
      (fun x hx => absurd hx (List.not_mem_nil x)) List.nodup_nil rfl rfl List.nodup_nil
      (fun x hx => absurd hx (List.not_mem_nil x))
  have hmb : Mirrors ({ ctx0 with dom := c2dom } : Ctx).dom 0 liInst2 :=
    Mirrors.host 0 2 (liV 2) "0.2" [] [] "li" rfl rfl rfl rfl
      (fun x hx => absurd hx (List.not_mem_nil x)) List.nodup_nil rfl rfl List.nodup_nil
      (fun x hx => absurd hx (List.not_mem_nil x))
  have hmc : Mirrors ({ ctx0 with dom := c2dom } : Ctx).dom 0 liInst3 :=
    Mirrors.host 0 1 (liV 3) "0.3" [] [] "li" rfl rfl rfl rfl
      (fun x hx => absurd hx (List.not_mem_nil x)) List.nodup_nil rfl rfl List.nodup_nil
      (fun x hx => absurd hx (List.not_mem_nil x))
  exact (keyed_reorder_reuses_instances_universally envEmpty { ctx0 with dom := c2dom } 0 0
    liInst1 liInst2 liInst3 3 2 1 (sizeOf liInst1 + sizeOf liInst2 + sizeOf liInst3 + 4) "0"
    hma hmb hmc rfl rfl rfl rfl rfl rfl rfl (by decide) (Nat.le_refl _)).1

end MiniReact
